import Mathlib

/-!
Verification development for the fantasy-football ingestion and
normalization pipeline (`app/ingest.py`, `app/store.py`, and the
`ingest_now` action of `app/main.py`).

Python JSON values are embedded as the inductive type `J` below; Python
dicts are insertion-ordered association lists with distinct keys, which
is exactly the shape produced by `json.loads`.  Stateful SQLite tables
are embedded as insertion-ordered association lists keyed by the
table's UNIQUE constraint, with upserts updating rows in place and
appending fresh rows at the end — matching SQLite's observable
behaviour for the statements used by `app/store.py`.  Python exceptions
are modelled with `Except String`.
-/

/-- A Python/JSON value as produced by `json.loads`: `null`, booleans,
integers, strings, lists, and insertion-ordered dicts. -/
inductive J where
  | null
  | b (v : Bool)
  | i (n : Int)
  | s (v : String)
  | arr (xs : List J)
  | obj (kvs : List (String × J))
  deriving Repr

mutual

/-- Decidable equality on `J` (hand-written; `J` is a nested inductive). -/
def jDecEq : (a b : J) → Decidable (a = b)
  | J.null, J.null => isTrue rfl
  | J.b x, J.b y =>
    if h : x = y then isTrue (by rw [h]) else isFalse (fun hh => h (by cases hh; rfl))
  | J.i x, J.i y =>
    if h : x = y then isTrue (by rw [h]) else isFalse (fun hh => h (by cases hh; rfl))
  | J.s x, J.s y =>
    if h : x = y then isTrue (by rw [h]) else isFalse (fun hh => h (by cases hh; rfl))
  | J.arr xs, J.arr ys =>
    match jDecEqL xs ys with
    | isTrue h => isTrue (by rw [h])
    | isFalse h => isFalse (fun hh => h (by cases hh; rfl))
  | J.obj xs, J.obj ys =>
    match jDecEqKV xs ys with
    | isTrue h => isTrue (by rw [h])
    | isFalse h => isFalse (fun hh => h (by cases hh; rfl))
  | J.null, J.b _ => isFalse (fun h => nomatch h)
  | J.null, J.i _ => isFalse (fun h => nomatch h)
  | J.null, J.s _ => isFalse (fun h => nomatch h)
  | J.null, J.arr _ => isFalse (fun h => nomatch h)
  | J.null, J.obj _ => isFalse (fun h => nomatch h)
  | J.b _, J.null => isFalse (fun h => nomatch h)
  | J.b _, J.i _ => isFalse (fun h => nomatch h)
  | J.b _, J.s _ => isFalse (fun h => nomatch h)
  | J.b _, J.arr _ => isFalse (fun h => nomatch h)
  | J.b _, J.obj _ => isFalse (fun h => nomatch h)
  | J.i _, J.null => isFalse (fun h => nomatch h)
  | J.i _, J.b _ => isFalse (fun h => nomatch h)
  | J.i _, J.s _ => isFalse (fun h => nomatch h)
  | J.i _, J.arr _ => isFalse (fun h => nomatch h)
  | J.i _, J.obj _ => isFalse (fun h => nomatch h)
  | J.s _, J.null => isFalse (fun h => nomatch h)
  | J.s _, J.b _ => isFalse (fun h => nomatch h)
  | J.s _, J.i _ => isFalse (fun h => nomatch h)
  | J.s _, J.arr _ => isFalse (fun h => nomatch h)
  | J.s _, J.obj _ => isFalse (fun h => nomatch h)
  | J.arr _, J.null => isFalse (fun h => nomatch h)
  | J.arr _, J.b _ => isFalse (fun h => nomatch h)
  | J.arr _, J.i _ => isFalse (fun h => nomatch h)
  | J.arr _, J.s _ => isFalse (fun h => nomatch h)
  | J.arr _, J.obj _ => isFalse (fun h => nomatch h)
  | J.obj _, J.null => isFalse (fun h => nomatch h)
  | J.obj _, J.b _ => isFalse (fun h => nomatch h)
  | J.obj _, J.i _ => isFalse (fun h => nomatch h)
  | J.obj _, J.s _ => isFalse (fun h => nomatch h)
  | J.obj _, J.arr _ => isFalse (fun h => nomatch h)

/-- Decidable equality on lists of `J`. -/
def jDecEqL : (a b : List J) → Decidable (a = b)
  | [], [] => isTrue rfl
  | [], _ :: _ => isFalse (fun h => nomatch h)
  | _ :: _, [] => isFalse (fun h => nomatch h)
  | x :: xs, y :: ys =>
    match jDecEq x y with
    | isFalse h1 => isFalse (fun h => by cases h; exact h1 rfl)
    | isTrue h1 =>
      match jDecEqL xs ys with
      | isTrue h2 => isTrue (by rw [h1, h2])
      | isFalse h2 => isFalse (fun h => by cases h; exact h2 rfl)

/-- Decidable equality on key/value lists of `J`. -/
def jDecEqKV : (a b : List (String × J)) → Decidable (a = b)
  | [], [] => isTrue rfl
  | [], _ :: _ => isFalse (fun h => nomatch h)
  | _ :: _, [] => isFalse (fun h => nomatch h)
  | (k1, v1) :: xs, (k2, v2) :: ys =>
    if hk : k1 = k2 then
      match jDecEq v1 v2 with
      | isFalse h1 => isFalse (fun h => by cases h; exact h1 rfl)
      | isTrue h1 =>
        match jDecEqKV xs ys with
        | isTrue h2 => isTrue (by rw [hk, h1, h2])
        | isFalse h2 => isFalse (fun h => by cases h; exact h2 rfl)
    else isFalse (fun h => by cases h; exact hk rfl)

end

instance : DecidableEq J := jDecEq

instance {ε α : Type} [DecidableEq ε] [DecidableEq α] :
    DecidableEq (Except ε α)
  | .error a, .error b =>
    if h : a = b then isTrue (by rw [h]) else isFalse (fun hh => h (by cases hh; rfl))
  | .ok a, .ok b =>
    if h : a = b then isTrue (by rw [h]) else isFalse (fun hh => h (by cases hh; rfl))
  | .error _, .ok _ => isFalse (fun h => nomatch h)
  | .ok _, .error _ => isFalse (fun h => nomatch h)

/-- Python truthiness (`bool(x)`): `None`, `False`, `0`, `""`, `[]` and
`{}` are falsy, everything else truthy. -/
def pyTruthy : J → Bool
  | J.null => false
  | J.b v => v
  | J.i n => n != 0
  | J.s v => v != ""
  | J.arr xs => !xs.isEmpty
  | J.obj kvs => !kvs.isEmpty

/-- Python `a or b`. -/
def pyOr (a b : J) : J := if pyTruthy a then a else b

/-- Python `str.isdigit()` restricted to ASCII content (all Yahoo keys
are ASCII): nonempty and every character a decimal digit. -/
def pyIsDigit (v : String) : Bool := !v.isEmpty && v.data.all Char.isDigit

/-- Python `str.strip()`: drop whitespace from both ends. -/
def pyStrip (s : String) : String :=
  ⟨((s.data.dropWhile Char.isWhitespace).reverse.dropWhile Char.isWhitespace).reverse⟩

/-- Lexicographic comparison of character lists by code point, as
Python compares `str`. -/
def charsLt : List Char → List Char → Bool
  | _, [] => false
  | [], _ :: _ => true
  | c :: cs, d :: ds =>
    if c.toNat < d.toNat then true
    else if d.toNat < c.toNat then false
    else charsLt cs ds

/-- Python `str` strict order. -/
def strLtB (a b : String) : Bool := charsLt a.data b.data

/-- JSON string escaping as done by `json.dumps` (backslash and quote;
control characters do not occur in the inputs modelled here). -/
def jsonEscape (v : String) : String :=
  v.data.foldl (fun acc c =>
    if c = '\\' then acc ++ "\\\\"
    else if c = '"' then acc ++ "\\\"" else acc.push c) ""

/-- A double-quoted JSON string literal. -/
def dq (v : String) : String := "\"" ++ jsonEscape v ++ "\""

mutual

/-- `json.dumps` with default separators and insertion key order. -/
def dumps : J → String
  | J.null => "null"
  | J.b true => "true"
  | J.b false => "false"
  | J.i n => toString n
  | J.s v => dq v
  | J.arr xs => "[" ++ dumpsL xs ++ "]"
  | J.obj kvs => "\x7b" ++ dumpsKV kvs ++ "\x7d"

/-- Comma-joined serialization of array elements. -/
def dumpsL : List J → String
  | [] => ""
  | [x] => dumps x
  | x :: y :: rest => dumps x ++ ", " ++ dumpsL (y :: rest)

/-- Comma-joined serialization of object entries. -/
def dumpsKV : List (String × J) → String
  | [] => ""
  | [(k, v)] => dq k ++ ": " ++ dumps v
  | (k, v) :: e :: rest => dq k ++ ": " ++ dumps v ++ ", " ++ dumpsKV (e :: rest)

end

/-- Stable insertion of an entry into a key-sorted entry list
(ascending by code points, as Python compares `str`). -/
def insertByKey (x : String × J) : List (String × J) → List (String × J)
  | [] => [x]
  | y :: ys => if strLtB x.1 y.1 then x :: y :: ys else y :: insertByKey x ys

/-- Sort object entries by key, ascending. -/
def sortKV (kvs : List (String × J)) : List (String × J) := kvs.foldr insertByKey []

mutual

/-- Recursively sort every object's keys (the effect of
`json.dumps(..., sort_keys=True)` on the tree before printing). -/
def sortJ : J → J
  | J.null => J.null
  | J.b v => J.b v
  | J.i n => J.i n
  | J.s v => J.s v
  | J.arr xs => J.arr (sortJL xs)
  | J.obj kvs => J.obj (sortKV (sortJKV kvs))

/-- `sortJ` mapped over array elements. -/
def sortJL : List J → List J
  | [] => []
  | x :: xs => sortJ x :: sortJL xs

/-- `sortJ` mapped over object values. -/
def sortJKV : List (String × J) → List (String × J)
  | [] => []
  | (k, v) :: rest => (k, sortJ v) :: sortJKV rest

end

/-- `json.dumps(x, sort_keys=True)`. -/
def dumpsSorted (x : J) : String := dumps (sortJ x)

/-- Python `str(x)`.  Exact for `None`, booleans, integers and strings
(the only values ingestion feeds to `str` on its identifier and name
fields); containers are rendered JSON-style, which differs from CPython
`repr` only in quote style and casing that no theorem below depends
on. -/
def pyStr : J → String
  | J.null => "None"
  | J.b true => "True"
  | J.b false => "False"
  | J.i n => toString n
  | J.s v => v
  | j => dumps j

/-- Decimal value of a digit list (most significant first). -/
def digitsToNat : List Char → Nat → Nat
  | [], acc => acc
  | c :: rest, acc => digitsToNat rest (acc * 10 + (c.toNat - 48))

/-- Python `int(str)`: strip whitespace, then an optional sign and a
nonempty run of decimal digits. -/
def pyIntOfString (v : String) : Option Int :=
  match (pyStrip v).data with
  | [] => none
  | '-' :: rest =>
    if !rest.isEmpty && rest.all Char.isDigit then
      some (-(digitsToNat rest 0 : Int))
    else none
  | '+' :: rest =>
    if !rest.isEmpty && rest.all Char.isDigit then
      some ((digitsToNat rest 0 : Int))
    else none
  | l =>
    if l.all Char.isDigit then some ((digitsToNat l 0 : Int)) else none

/-- Python `int(x)`: exact on ints and bools; on strings, strip
whitespace and parse an optional-sign decimal numeral; raises
(`Except.error`) otherwise. -/
def pyInt : J → Except String Int
  | J.i n => .ok n
  | J.b true => .ok 1
  | J.b false => .ok 0
  | J.s v =>
    match pyIntOfString v with
    | some n => .ok n
    | none => .error ("ValueError: invalid literal for int: " ++ v)
  | _ => .error "TypeError: int() argument"

/-- First value for a key in an insertion-ordered dict (keys are unique
in dicts produced by `json.loads`). -/
def getKV : List (String × J) → String → Option J
  | [], _ => none
  | (k, v) :: rest, key => if k = key then some v else getKV rest key

/-- Python `d.get(key, default)` on a dict's entry list. -/
def pyGetD (kvs : List (String × J)) (key : String) (d : J) : J :=
  (getKV kvs key).getD d

/-- Python `d.get(key)` (default `None`). -/
def pyGet (kvs : List (String × J)) (key : String) : J := pyGetD kvs key J.null

/-- Python `key in d`. -/
def hasKeyKV (kvs : List (String × J)) (key : String) : Bool := (getKV kvs key).isSome

/-- `x.get(key)` where `x` may not be a dict: a Python `AttributeError`
when it is not. -/
def jGet (x : J) (key : String) : Except String J :=
  match x with
  | J.obj kvs => .ok (pyGet kvs key)
  | _ => .error "AttributeError: get"

/-- `x.get(key, d)` where `x` may not be a dict. -/
def jGetD (x : J) (key : String) (d : J) : Except String J :=
  match x with
  | J.obj kvs => .ok (pyGetD kvs key d)
  | _ => .error "AttributeError: get"

/-- Python `dict[key] = value`: overwrite in place if the key exists
(keeping its position), else append. -/
def setKV : List (String × J) → String → J → List (String × J)
  | [], k, v => [(k, v)]
  | (k1, v1) :: rest, k, v =>
    if k1 = k then (k, v) :: rest else (k1, v1) :: setKV rest k v

/-- Python `base.update(upd)`: fold the entries of `upd` into `base`
left to right. -/
def updKV (base upd : List (String × J)) : List (String × J) :=
  upd.foldl (fun acc kv => setKV acc kv.1 kv.2) base

/-- Is the value a dict? -/
def isObjB : J → Bool
  | J.obj _ => true
  | _ => false

/-- Is the value a list? -/
def isArrB : J → Bool
  | J.arr _ => true
  | _ => false

mutual

/-- The loop of `_flatten_yahoo_list` over a list's items, carrying the
`result` dict. -/
def flattenItems : List J → List (String × J) → List (String × J)
  | [], acc => acc
  | item :: rest, acc => flattenItems rest (flattenStep item acc)

/-- One iteration of the `_flatten_yahoo_list` loop: a dict item is
merged with `result.update(item)`; a list item is recursively
flattened and merged when the flattening is nonempty; any other item
is skipped. -/
def flattenStep : J → List (String × J) → List (String × J)
  | J.obj kvs, acc => updKV acc kvs
  | J.arr xs, acc =>
    let nested := flattenItems xs []
    if nested.isEmpty then acc else updKV acc nested
  | _, acc => acc

end

/-- `ingest._flatten_yahoo_list`: Yahoo returns objects as lists of
single-key dicts; flatten to one dict.  A non-list input is returned
unchanged if it is a dict, else becomes `{}`. -/
def flatten_yahoo_list : J → List (String × J)
  | J.arr items => flattenItems items []
  | J.obj kvs => kvs
  | _ => []

/-- The path-walking loop of `_extract_items`: at a dict, follow
`current.get(key, {})`; at a list, keep the list when the key is
`"league"` and the list is nonempty, else look for the key inside the
element at index 1 when the list has at least two elements, else unwrap
a singleton list (consuming the key), else fail (`return []`). -/
def navD : J → List String → Option J
  | current, [] => some current
  | current, key :: keys =>
    match current with
    | J.obj kvs => navD (pyGetD kvs key (J.obj [])) keys
    | J.arr xs =>
      if key = "league" ∧ 0 < xs.length then navD (J.arr xs) keys
      else
        match xs with
        | _ :: x1 :: _ =>
          match x1 with
          | J.obj kvs1 =>
            if hasKeyKV kvs1 key then navD (pyGetD kvs1 key (J.obj [])) keys
            else none
          | _ => none
        | [x0] => navD x0 keys
        | [] => none
    | _ => none

/-- The final collection step of `_extract_items` on a dict node: the
loop `for k, v in current.items(): if k.isdigit() and isinstance(v,
dict): items.append(v)` — i.e. digit-keyed dict values, in the dict's
insertion order. -/
def digitItems (kvs : List (String × J)) : List J :=
  kvs.foldl (fun items kv =>
    if pyIsDigit kv.1 && isObjB kv.2 then items ++ [kv.2] else items) []

/-- `ingest._extract_items`: navigate Yahoo's
`fantasy_content.league.X` structure and extract numeric-keyed items.
A dead-ended path yields `[]`; a list node at the end of the path is
returned whole; a dict node yields its digit-keyed dict values in
insertion order. -/
def extract_items (data : J) (path : List String) : List J :=
  match navD data path with
  | none => []
  | some current =>
    match current with
    | J.arr xs => xs
    | J.obj kvs => digitItems kvs
    | _ => []

/-!
### Keyed SQLite tables

Every `CREATE TABLE` in `app/store.py` used by ingestion either has a
UNIQUE key and is written with `INSERT ... ON CONFLICT ... DO UPDATE`
(players, teams, rosters, matchups), or is append-only
(transactions_raw, and snapshots via its UNIQUE(content_hash) guard).
A keyed table is embedded as a list of (key, value) rows in physical
insertion order: an upsert updates a conflicting row in place and
appends a fresh row at the end, exactly SQLite's observable behaviour.
The update applied on conflict may read the old row (rosters'
`COALESCE(excluded.slot, slot)`), so it is a function of the optional
old value.
-/

section KeyedTable

variable {K C V : Type} [DecidableEq K]

variable (key : C → K) (interp : C → Option V → V)

/-- Row lookup by unique key. -/
def lookupT : List (K × V) → K → Option V
  | [], _ => none
  | (k1, v) :: rest, k => if k1 = k then some v else lookupT rest k

/-- `INSERT ... ON CONFLICT DO UPDATE`: replace the conflicting row in
place, else append the fresh row. -/
def upsertT : List (K × V) → K → (Option V → V) → List (K × V)
  | [], k, f => [(k, f none)]
  | (k1, v1) :: rest, k, f =>
    if k1 = k then (k, f (some v1)) :: rest else (k1, v1) :: upsertT rest k f

/-- The key column of a table. -/
def keysT (t : List (K × V)) : List K := t.map Prod.fst

/-- Run a list of upsert calls left to right: `key` gives each call's
conflict key, `interp` the row written (as a function of the old row). -/
def applyT (cs : List C) (t : List (K × V)) : List (K × V) :=
  cs.foldl (fun t c => upsertT t (key c) (interp c)) t

/-- The effect of a call list on the single key `k`, as a function on
the optional row value. -/
def chainT (cs : List C) (k : K) (o : Option V) : Option V :=
  cs.foldl (fun acc c => if key c = k then some (interp c acc) else acc) o

/-- The per-key effect of applying every call of `rs` in order (no key
filtering). -/
def chainAll (rs : List C) (o : Option V) : Option V :=
  rs.foldl (fun a c => some (interp c a)) o

end KeyedTable

/-!
### Entities of `app/store.py`

Row values carry every mutable column of the table (timestamps such as
`updated_at`/`created_at`, which SQLite fills with `datetime('now')`,
are outside the model; "unchanged" below always means unchanged in the
modelled columns).  Fields that the Python code passes through without
coercion keep type `J` (with `J.null` for `None`/SQL NULL); fields the
code builds with `str()`/`int()` are `String`/`Int`.
-/
/-- SQL `COALESCE(x, y)` for two arguments, with `J.null` as NULL. -/
def coal (x y : J) : J := if x = J.null then y else x

/-- A `players` row (minus `id`, the key, and `updated_at`). -/
structure PlayerVal where
  name : String
  position : Option String
  team : Option String
  bye_week : Option Int
  deriving Repr, DecidableEq

/-- A `teams` row (minus `id` and `updated_at`). -/
structure TeamVal where
  name : String
  manager : J
  «abbrev» : J
  deriving Repr, DecidableEq

/-- A `rosters` row (minus the unique key `(team_id, player_id, week)`). -/
structure RosterVal where
  status : J
  slot : J
  deriving Repr, DecidableEq

/-- A `matchups` row (minus the unique key `(week, team_id)`). -/
structure MatchupVal where
  opponent_id : String
  is_playoffs : Bool
  projected : J
  actual : J
  result : J
  deriving Repr, DecidableEq

/-- A `transactions_raw` row (minus autoincrement id and `created_at`). -/
structure TxRow where
  kind : Option String
  team_id : Option String
  raw : String
  deriving Repr, DecidableEq

/-- A `snapshots` row (minus autoincrement id and `created_at`). -/
structure SnapRow where
  endpoint : String
  params : String
  content_hash : String
  raw : String
  deriving Repr, DecidableEq

/-- Arguments of one `store.upsert_player` call. -/
structure PlayerCall where
  player_id : String
  name : String
  position : Option String
  team : Option String
  bye_week : Option Int
  deriving Repr, DecidableEq

/-- Arguments of one `store.upsert_team` call. -/
structure TeamCall where
  team_id : String
  name : String
  manager : J
  «abbrev» : J
  deriving Repr, DecidableEq

/-- Arguments of one `store.upsert_roster` call. -/
structure RosterCall where
  team_id : String
  player_id : String
  week : Int
  status : J
  slot : J
  deriving Repr, DecidableEq

/-- Arguments of one `store.upsert_matchup` call. -/
structure MatchupCall where
  week : Int
  team_id : String
  opponent_id : String
  is_playoffs : Bool
  projected : J
  actual : J
  result : J
  deriving Repr, DecidableEq

/-- Arguments of one `store.insert_transaction_raw` call. -/
structure TxCall where
  kind : Option String
  team_id : Option String
  raw : String
  deriving Repr, DecidableEq

/-- Conflict key of `upsert_player` (`players.id`). -/
def playerKey (c : PlayerCall) : String := c.player_id

/-- `ON CONFLICT(id) DO UPDATE SET name=excluded.name, ...`: every
column overwritten, old row unread. -/
def interpPlayer (c : PlayerCall) : Option PlayerVal → PlayerVal :=
  fun _ => ⟨c.name, c.position, c.team, c.bye_week⟩

/-- Conflict key of `upsert_team` (`teams.id`). -/
def teamKey (c : TeamCall) : String := c.team_id

/-- `ON CONFLICT(id) DO UPDATE`: every column overwritten. -/
def interpTeam (c : TeamCall) : Option TeamVal → TeamVal :=
  fun _ => ⟨c.name, c.manager, c.«abbrev»⟩

/-- Conflict key of `upsert_roster` (`UNIQUE(team_id, player_id, week)`). -/
def rosterKey (c : RosterCall) : String × String × Int :=
  (c.team_id, c.player_id, c.week)

/-- The `slot` column of an optional existing row (`J.null` when the
row is absent, matching the fresh-insert case). -/
def slotOfO : Option RosterVal → J
  | some r => r.slot
  | none => J.null

/-- `ON CONFLICT(team_id, player_id, week) DO UPDATE SET
status=excluded.status, slot=COALESCE(excluded.slot, slot)`: status
always overwritten, slot only when the incoming slot is non-NULL. -/
def interpRoster (c : RosterCall) (o : Option RosterVal) : RosterVal :=
  ⟨c.status, coal c.slot (slotOfO o)⟩

/-- Conflict key of `upsert_matchup` (`UNIQUE(week, team_id)`). -/
def matchupKey (c : MatchupCall) : Int × String := (c.week, c.team_id)

/-- `ON CONFLICT(week, team_id) DO UPDATE`: every column overwritten. -/
def interpMatchup (c : MatchupCall) : Option MatchupVal → MatchupVal :=
  fun _ => ⟨c.opponent_id, c.is_playoffs, c.projected, c.actual, c.result⟩

/-- `store.upsert_roster` acting on the rosters table. -/
def upsert_roster (t : List ((String × String × Int) × RosterVal))
    (team_id player_id : String) (week : Int) (status slot : J) :
    List ((String × String × Int) × RosterVal) :=
  upsertT t (team_id, player_id, week)
    (interpRoster ⟨team_id, player_id, week, status, slot⟩)

/-- `store.insert_transaction_raw`: plain append-only INSERT. -/
def insert_transaction_raw (t : List TxRow) (kind team_id : Option String)
    (raw : String) : List TxRow :=
  t ++ [⟨kind, team_id, raw⟩]

/-- The hashed payload of `store.record_snapshot`:
`{"endpoint": ..., "params": params or {}, "raw": ...}`. -/
def snapPayload (endpoint : String) (params : List (String × J))
    (raw : String) : J :=
  J.obj [("endpoint", J.s endpoint), ("params", J.obj params), ("raw", J.s raw)]

/-- The content hash computed by `store.record_snapshot`:
`sha1(json.dumps({"endpoint": ..., "params": ..., "raw": ...},
sort_keys=True))`, with the SHA-1 hex digest abstracted as `sha1`
(`hashlib` is external library code). -/
def snapDigest (sha1 : String → String) (endpoint : String)
    (params : List (String × J)) (raw : String) : String :=
  sha1 (dumpsSorted (snapPayload endpoint params raw))

/-- `store.record_snapshot`: compute the content hash, attempt the
INSERT, and catch the UNIQUE(content_hash) violation as
`wasInserted = false` (a row with the same hash already exists exactly
when the insert would violate the constraint).  Returns the new table,
the digest, and the inserted flag. -/
def record_snapshot (sha1 : String → String) (t : List SnapRow)
    (endpoint : String) (params : List (String × J)) (raw : String) :
    List SnapRow × String × Bool :=
  let digest := snapDigest sha1 endpoint params raw
  if t.any (fun r => r.content_hash == digest) then (t, digest, false)
  else (t ++ [⟨endpoint, dumps (J.obj params), digest, raw⟩], digest, true)

/-- Number of snapshots rows carrying a given content hash. -/
def countHash (t : List SnapRow) (h : String) : Nat :=
  (t.filter (fun r => r.content_hash == h)).length

/-- The persistent store: the tables ingestion writes. -/
structure DB where
  players : List (String × PlayerVal)
  teams : List (String × TeamVal)
  rosters : List ((String × String × Int) × RosterVal)
  matchups : List ((Int × String) × MatchupVal)
  transactions_raw : List TxRow
  snapshots : List SnapRow
  deriving Repr, DecidableEq

/-- One store write performed by `persist_bundle`. -/
inductive Call where
  | player (c : PlayerCall)
  | team (c : TeamCall)
  | roster (c : RosterCall)
  | matchup (c : MatchupCall)
  | tx (c : TxCall)
  deriving Repr, DecidableEq

/-- Execute one store write. -/
def applyCall (db : DB) : Call → DB
  | .player c => { db with players := upsertT db.players (playerKey c) (interpPlayer c) }
  | .team c => { db with teams := upsertT db.teams (teamKey c) (interpTeam c) }
  | .roster c => { db with rosters := upsertT db.rosters (rosterKey c) (interpRoster c) }
  | .matchup c => { db with matchups := upsertT db.matchups (matchupKey c) (interpMatchup c) }
  | .tx c => { db with transactions_raw := insert_transaction_raw db.transactions_raw c.kind c.team_id c.raw }

/-- Execute a list of store writes left to right. -/
def applyCalls (db : DB) (cs : List Call) : DB := cs.foldl applyCall db

/-- The player upserts of a call list, in order. -/
def playerCallsOf (cs : List Call) : List PlayerCall :=
  cs.filterMap fun c => match c with | .player p => some p | _ => none

/-- The team upserts of a call list, in order. -/
def teamCallsOf (cs : List Call) : List TeamCall :=
  cs.filterMap fun c => match c with | .team p => some p | _ => none

/-- The roster upserts of a call list, in order. -/
def rosterCallsOf (cs : List Call) : List RosterCall :=
  cs.filterMap fun c => match c with | .roster p => some p | _ => none

/-- The matchup upserts of a call list, in order. -/
def matchupCallsOf (cs : List Call) : List MatchupCall :=
  cs.filterMap fun c => match c with | .matchup p => some p | _ => none

/-- The transaction rows appended by a call list, in order. -/
def txRowsOf (cs : List Call) : List TxRow :=
  cs.filterMap fun c => match c with
    | .tx p => some ⟨p.kind, p.team_id, p.raw⟩
    | _ => none

/-- Folding the incoming slots of a roster-call list over a starting
slot (the slot column after those calls, by `COALESCE`). -/
def sAll (rs : List RosterCall) (a : J) : J :=
  rs.foldl (fun a c => coal c.slot a) a

/-!
### `ingest.persist_bundle`

`persist_bundle` reads the bundle, parses each resource defensively and
issues store writes as it goes.  None of the store writes influences
the parsing (the store functions return nothing the parser reads), so
the function factors into a pure call-list computation
(`persist_bundle_calls`) followed by `applyCalls`; `persist_bundle`
below is that composition.  A Python exception during parsing (the
`int(...)`, string-concatenation and `.get`-on-non-dict crash points
are all modelled) is an `Except.error`; the theorems about successful
runs take the `.ok` case as hypothesis.
-/
/-- Python short-circuit `a or <expr>` where the right operand may
raise when evaluated. -/
def pyOrE (a : J) (b : Unit → Except String J) : Except String J :=
  if pyTruthy a then .ok a else b ()

/-- Python `+` on two values that must both be `str`. -/
def pyAddStr (a b : J) : Except String J :=
  match a, b with
  | J.s x, J.s y => .ok (J.s (x ++ y))
  | _, _ => .error "TypeError: can only concatenate str"

/-- Iterate a Python `for` loop body that emits store calls, stopping
at the first raised exception. -/
def concatMapM (f : J → Except String (List Call)) :
    List J → Except String (List Call)
  | [] => .ok []
  | x :: xs => do
    let c ← f x
    let cs ← concatMapM f xs
    .ok (c ++ cs)

/-- One iteration of the plain-list teams loop of `persist_bundle`. -/
def teamItemList (t : J) : Except String (List Call) :=
  match t with
  | J.obj kvs => do
    let tid := pyStr (pyOr (pyGet kvs "team_id")
      (pyOr (pyGet kvs "id") (pyOr (pyGet kvs "team_key") (J.s ""))))
    let name0 ← pyOrE (pyGet kvs "name") (fun _ => do
      let v ← jGet (pyOr (pyGet kvs "team") (J.obj [])) "name"
      .ok (pyOr v (J.s tid)))
    let name := match name0 with
      | J.obj nkvs => pyOr (pyGet nkvs "full") (pyOr (pyGet nkvs "display") (J.s tid))
      | _ => name0
    let manager ← (match pyGet kvs "managers" with
      | J.arr ms =>
        match (if ms.isEmpty then [J.obj []] else ms) with
        | first :: _ => jGet first "nickname"
        | [] => .error "IndexError: list index out of range"
      | _ => .ok J.null)
    let ab1 ← jGet (pyOr (pyGet kvs "team") (J.obj [])) "abbr"
    let ab := pyOr ab1 (pyGet kvs "abbrev")
    if tid != "" && pyTruthy name then
      .ok [Call.team ⟨tid, pyStr name, manager, ab⟩]
    else .ok []
  | _ => .ok []

/-- One iteration of the Yahoo-envelope teams loop of
`persist_bundle`. -/
def teamWrapItem (w : J) : Except String (List Call) :=
  let team_list := match w with
    | J.obj kvs => pyGet kvs "team"
    | _ => J.null
  match team_list with
  | J.arr tl => do
    let team := flatten_yahoo_list (J.arr tl)
    let tid := pyStr (pyOr (pyGet team "team_id") (pyOr (pyGet team "team_key") (J.s "")))
    let name := pyGetD team "name" (J.s "")
    let manager ← (match pyGet team "managers" with
      | J.arr ms =>
        if ms.isEmpty then .ok J.null
        else
          match ms with
          | mgr_wrap :: _ =>
            match mgr_wrap with
            | J.obj mw => do
              let mgr := pyGetD mw "manager" (J.obj [])
              let nick ← jGet mgr "nickname"
              if pyTruthy nick then .ok nick else jGet mgr "guid"
            | _ => .ok J.null
          | [] => .ok J.null
      | _ => .ok J.null)
    if tid != "" && pyTruthy name then
      .ok [Call.team ⟨tid, pyStr name, manager, J.null⟩]
    else .ok []
  | _ => .ok []

/-- The `# Teams` section of `persist_bundle`. -/
def parseTeams (teams : J) : Except String (List Call) :=
  match teams with
  | J.arr ts => concatMapM teamItemList ts
  | J.obj _ => concatMapM teamWrapItem
      (extract_items teams ["fantasy_content", "league", "teams"])
  | _ => .ok []

/-- `int(x) if x else None` as used for `bye_week`. -/
def byeOf (bye : J) : Except String (Option Int) :=
  if pyTruthy bye then do
    let n ← pyInt bye
    .ok (some n)
  else .ok none

/-- `str(x) if x else None` as used for position/team fields. -/
def strIfTruthy (x : J) : Option String :=
  if pyTruthy x then some (pyStr x) else none

/-- One iteration of the plain-list players loop of `persist_bundle`. -/
def playerItemList (p : J) : Except String (List Call) :=
  match p with
  | J.obj kvs => do
    let pid := pyStr (pyOr (pyGet kvs "player_id")
      (pyOr (pyGet kvs "id") (pyOr (pyGet kvs "player_key") (J.s ""))))
    let name0 ← pyOrE (pyGet kvs "name") (fun _ => do
      let v ← jGet (pyOr (pyGet kvs "player") (J.obj [])) "name"
      .ok (pyOr v (J.s pid)))
    let name := match name0 with
      | J.obj nkvs => pyOr (pyGet nkvs "full") (pyOr (pyGet nkvs "display") (J.s pid))
      | _ => name0
    let pos ← pyOrE (pyGet kvs "position") (fun _ =>
      pyOrE (pyGet kvs "display_position") (fun _ =>
        jGet (pyOr (pyGet kvs "player") (J.obj [])) "display_position"))
    let team ← pyOrE (pyGet kvs "editorial_team_abbr") (fun _ =>
      jGet (pyOr (pyGet kvs "player") (J.obj [])) "editorial_team_abbr")
    let bye ← pyOrE (pyGet kvs "bye_week") (fun _ =>
      jGet (pyOr (pyGet kvs "bye_weeks") (J.obj [])) "week")
    if pid != "" && pyTruthy name then do
      let byeOpt ← byeOf bye
      .ok [Call.player ⟨pid, pyStr name, strIfTruthy pos, strIfTruthy team, byeOpt⟩]
    else .ok []
  | _ => .ok []

/-- The flattened-player field extraction shared by the players and
rosters envelope loops: id, name (possibly assembled from ascii
parts), position, NFL team and bye week. -/
def flatPlayerFields (player : List (String × J)) :
    Except String (String × J × Option String × Option String × J) := do
  let pid := pyStr (pyOr (pyGet player "player_id") (pyOr (pyGet player "player_key") (J.s "")))
  let name0 := pyGetD player "name" (J.obj [])
  let name ← (match name0 with
    | J.obj nk => pyOrE (pyGet nk "full") (fun _ => do
        let l ← pyAddStr (pyGetD nk "ascii_first" (J.s "")) (J.s " ")
        pyAddStr l (pyGetD nk "ascii_last" (J.s "")))
    | _ => .ok name0)
  let pos := pyOr (pyGet player "display_position") (pyGet player "primary_position")
  let team := pyGet player "editorial_team_abbr"
  let bye := match pyGet player "bye_weeks" with
    | J.obj bk => pyGet bk "week"
    | _ => J.null
  .ok (pid, name, strIfTruthy pos, strIfTruthy team, bye)

/-- One iteration of the Yahoo-envelope players loop of
`persist_bundle`. -/
def playerWrapItem (w : J) : Except String (List Call) :=
  let player_list := match w with
    | J.obj kvs => pyGet kvs "player"
    | _ => J.null
  match player_list with
  | J.arr pl => do
    let player := flatten_yahoo_list (J.arr pl)
    let (pid, name, pos, team, bye) ← flatPlayerFields player
    if pid != "" && pyTruthy name then do
      let byeOpt ← byeOf bye
      .ok [Call.player ⟨pid, pyStrip (pyStr name), pos, team, byeOpt⟩]
    else .ok []
  | _ => .ok []

/-- The `# Players` section of `persist_bundle`. -/
def parsePlayers (players : J) : Except String (List Call) :=
  match players with
  | J.arr ps => concatMapM playerItemList ps
  | J.obj _ => concatMapM playerWrapItem
      (extract_items players ["fantasy_content", "league", "players"])
  | _ => .ok []

/-- Week coercion of the plain-list rosters loop:
`int(w) if isinstance(w, (int, str)) and str(w).isdigit() else 0`
(booleans are `int` instances in Python but never print as digits). -/
def rosterWeekList (w : J) : Int :=
  match w with
  | J.i n => if pyIsDigit (toString n) then n else 0
  | J.s v => if pyIsDigit v then (pyIntOfString v).getD 0 else 0
  | _ => 0

/-- Week coercion of the envelope loops: digit strings to `int`,
non-`int` non-`str` to 0, ints (including Python bools) kept. -/
def weekCoerce (w : J) : Int :=
  match w with
  | J.s v => if pyIsDigit v then (pyIntOfString v).getD 0 else 0
  | J.i n => n
  | J.b v => if v then 1 else 0
  | _ => 0

/-- One iteration of the inner entries loop of the plain-list rosters
branch. -/
def rosterEntryItem (team_id : String) (week : Int) (entry : J) :
    Except String (List Call) :=
  match entry with
  | J.obj kvs =>
    let pid := pyStr (pyOr (pyGet kvs "player_id")
      (pyOr (pyGet kvs "id") (pyOr (pyGet kvs "player_key") (J.s ""))))
    let slot := pyOr (pyGet kvs "slot") (pyGet kvs "position")
    let status := pyGet kvs "status"
    if team_id != "" && pid != "" && week != 0 then
      .ok [Call.roster ⟨team_id, pid, week, status, slot⟩]
    else .ok []
  | _ => .ok []

/-- One iteration of the plain-list rosters loop of `persist_bundle`. -/
def rosterItemList (r : J) : Except String (List Call) :=
  match r with
  | J.obj kvs => do
    let team_id := pyStr (pyOr (pyGet kvs "team_id")
      (pyOr (pyGet kvs "teamKey") (pyOr (pyGet kvs "team_key") (J.s ""))))
    let week := rosterWeekList (pyGet kvs "week")
    let entries := match pyGet kvs "entries" with
      | J.arr es => es
      | _ => []
    concatMapM (rosterEntryItem team_id week) entries
  | _ => .ok []

/-- One iteration of the inner players loop of the envelope rosters
branch: upsert player details, then the roster row with the selected
position as slot. -/
def rosterPlayerWrapItem (team_id : String) (week : Int) (w : J) :
    Except String (List Call) :=
  let player_list := match w with
    | J.obj kvs => pyGet kvs "player"
    | _ => J.null
  match player_list with
  | J.arr pl => do
    let player := flatten_yahoo_list (J.arr pl)
    let (pid, name, pos, team, bye) ← flatPlayerFields player
    let playerCalls ← (if pid != "" && pyTruthy name then do
      let byeOpt ← byeOf bye
      .ok [Call.player ⟨pid, pyStrip (pyStr name), pos, team, byeOpt⟩]
    else .ok ([] : List Call))
    let selected_list := match w with
      | J.obj kvs => pyGet kvs "selected_position"
      | _ => J.null
    let selected := match selected_list with
      | J.arr _ => flatten_yahoo_list selected_list
      | J.obj sk => sk
      | _ => []
    let slot := pyGet selected "position"
    let status := pyGet player "status"
    let rosterCalls :=
      if team_id != "" && pid != "" && week != 0 then
        [Call.roster ⟨team_id, pid, week, status, slot⟩]
      else []
    .ok (playerCalls ++ rosterCalls)
  | _ => .ok []

/-- One iteration of the envelope rosters loop (a team with its
expanded roster). -/
def rosterTeamWrapItem (w : J) : Except String (List Call) :=
  let team_list := match w with
    | J.obj kvs => pyGet kvs "team"
    | _ => J.null
  match team_list with
  | J.arr tl => do
    let team := flatten_yahoo_list (J.arr tl)
    let team_id := pyStr (pyOr (pyGet team "team_id") (pyOr (pyGet team "team_key") (J.s "")))
    match pyGetD team "roster" (J.obj []) with
    | J.obj rk => do
      let week := weekCoerce (pyGet rk "week")
      let roster_wrap := pyGetD rk "0" (J.obj [])
      let players_data ← jGetD roster_wrap "players" (J.obj [])
      concatMapM (rosterPlayerWrapItem team_id week) (extract_items players_data [])
    | _ => .ok []
  | _ => .ok []

/-- The `# Rosters` section of `persist_bundle`. -/
def parseRosters (rosters : J) : Except String (List Call) :=
  match rosters with
  | J.arr rs => concatMapM rosterItemList rs
  | J.obj _ => concatMapM rosterTeamWrapItem
      (extract_items rosters ["fantasy_content", "league", "teams"])
  | _ => .ok []

/-- One iteration of the plain-list matchups loop of
`persist_bundle`: on a resolved week and two non-empty team ids, write
both symmetric rows; otherwise write nothing. -/
def matchupItemList (m : J) : Except String (List Call) :=
  match m with
  | J.obj kvs => do
    let week ← pyInt (pyOr (pyGet kvs "week") (J.i 0))
    let a := pyOr (pyGet kvs "team_a") (pyOr (pyGet kvs "teamA") (J.obj []))
    let b := pyOr (pyGet kvs "team_b") (pyOr (pyGet kvs "teamB") (J.obj []))
    let a_id := match a with
      | J.obj ak => pyStr (pyOr (pyGet ak "team_id") (pyOr (pyGet ak "id") (J.s "")))
      | _ => ""
    let b_id := match b with
      | J.obj bk => pyStr (pyOr (pyGet bk "team_id") (pyOr (pyGet bk "id") (J.s "")))
      | _ => ""
    if week != 0 && a_id != "" && b_id != "" then
      .ok [Call.matchup ⟨week, a_id, b_id, false, J.null, J.null, J.null⟩,
        Call.matchup ⟨week, b_id, a_id, false, J.null, J.null, J.null⟩]
    else .ok []
  | _ => .ok []

/-- One iteration of the envelope matchups loop (given the scoreboard
week). -/
def matchupWrapItem (week : Int) (w : J) : Except String (List Call) :=
  let matchup_data := match w with
    | J.obj kvs => pyGetD kvs "matchup" (J.obj [])
    | _ => J.obj []
  match matchup_data with
  | J.obj mk => do
    let teams_wrap := pyGetD mk "0" (J.obj [])
    let teams ← jGetD teams_wrap "teams" (J.obj [])
    let team_list := extract_items teams []
    match team_list with
    | t0 :: t1 :: _ =>
      let team_a_list := match t0 with
        | J.obj k0 => pyGet k0 "team"
        | _ => J.null
      let team_b_list := match t1 with
        | J.obj k1 => pyGet k1 "team"
        | _ => J.null
      match team_a_list, team_b_list with
      | J.arr al, J.arr bl =>
        let team_a := flatten_yahoo_list (J.arr al)
        let team_b := flatten_yahoo_list (J.arr bl)
        let a_id := pyStr (pyOr (pyGet team_a "team_id") (pyOr (pyGet team_a "team_key") (J.s "")))
        let b_id := pyStr (pyOr (pyGet team_b "team_id") (pyOr (pyGet team_b "team_key") (J.s "")))
        if week != 0 && a_id != "" && b_id != "" then
          .ok [Call.matchup ⟨week, a_id, b_id, false, J.null, J.null, J.null⟩,
            Call.matchup ⟨week, b_id, a_id, false, J.null, J.null, J.null⟩]
        else .ok []
      | _, _ => .ok []
    | _ => .ok []
  | _ => .ok []

/-- The `# Matchups` section of `persist_bundle`. -/
def parseMatchups (matchups_raw : J) : Except String (List Call) :=
  match matchups_raw with
  | J.arr ms => concatMapM matchupItemList ms
  | J.obj kvs => do
    let fc := pyGetD kvs "fantasy_content" (J.obj [])
    let league ← jGetD fc "league" (J.arr [])
    match league with
    | J.arr ls =>
      match ls with
      | _ :: l1 :: _ => do
        let scoreboard ← jGetD l1 "scoreboard" (J.obj [])
        let weekRaw ← jGet scoreboard "week"
        let week := weekCoerce weekRaw
        let sb_wrap ← jGetD scoreboard "0" (J.obj [])
        let matchups_dict ← jGetD sb_wrap "matchups" (J.obj [])
        concatMapM (matchupWrapItem week) (extract_items matchups_dict [])
      | _ => .ok []
    | _ => .ok []
  | _ => .ok []

/-- One iteration of the plain-list transactions loop of
`persist_bundle`. -/
def txItemList (tx : J) : Except String (List Call) :=
  match tx with
  | J.obj kvs =>
    let kind := pyStr (pyOr (pyGet kvs "type") (pyOr (pyGet kvs "kind") (J.s "")))
    let team_id := pyStr (pyOr (pyGet kvs "team_id") (pyOr (pyGet kvs "teamKey") (J.s "")))
    .ok [Call.tx ⟨if kind = "" then none else some kind,
      if team_id = "" then none else some team_id, dumps tx⟩]
  | _ => .ok []

/-- One iteration of the envelope transactions loop of
`persist_bundle`: the acting team is hard-coded to `None`. -/
def txWrapItem (w : J) : Except String (List Call) :=
  let tx_list := match w with
    | J.obj kvs => pyGet kvs "transaction"
    | _ => J.null
  match tx_list with
  | J.arr tl =>
    let tx := flatten_yahoo_list (J.arr tl)
    let kind := pyStr (pyOr (pyGet tx "type") (J.s ""))
    .ok [Call.tx ⟨if kind = "" then none else some kind, none, dumps (J.obj tx)⟩]
  | _ => .ok []

/-- The `# Transactions` section of `persist_bundle`. -/
def parseTransactions (txs : J) : Except String (List Call) :=
  match txs with
  | J.arr ts => concatMapM txItemList ts
  | J.obj _ => concatMapM txWrapItem
      (extract_items txs ["fantasy_content", "league", "transactions"])
  | _ => .ok []

/-- The full sequence of store writes `persist_bundle` performs on a
bundle (teams, players, rosters, matchups, transactions, in program
order).  Depends only on the bundle, never on the store. -/
def persist_bundle_calls (bundle : List (String × J)) :
    Except String (List Call) := do
  let t ← parseTeams (pyGet bundle "teams")
  let p ← parsePlayers (pyGet bundle "players")
  let r ← parseRosters (pyGet bundle "rosters")
  let m ← parseMatchups (pyGet bundle "matchups")
  let x ← parseTransactions (pyGet bundle "transactions")
  .ok (t ++ p ++ r ++ m ++ x)

/-- `ingest.persist_bundle`: parse the bundle and execute every store
write. -/
def persist_bundle (db : DB) (bundle : List (String × J)) :
    Except String DB := do
  let cs ← persist_bundle_calls bundle
  .ok (applyCalls db cs)

/-!
### Request cache (`_cache_key_for`, `_cache_read`,
`_get_or_fetch_json`)

The on-disk cache directory is a partial map from cache key to file
content; `json.loads` is external library code and enters as a
`parse` parameter, as does `hashlib.sha1` (`sha1`).
-/
/-- Lexicographic order on the `(str(k), str(v))` pairs that Python's
`sorted` uses. -/
def pairLt (a b : String × String) : Bool :=
  strLtB a.1 b.1 || (a.1 == b.1 && strLtB a.2 b.2)

/-- Insertion step of a stable ascending sort on pairs. -/
def insertPair (x : String × String) :
    List (String × String) → List (String × String)
  | [] => [x]
  | y :: ys => if pairLt x y then x :: y :: ys else y :: insertPair x ys

/-- `sorted(...)` on `(str(k), str(v))` pairs. -/
def sortPairs (l : List (String × String)) : List (String × String) :=
  l.foldr insertPair []

/-- The string `_cache_key_for` feeds to SHA-1:
`path.strip()`, then `?k=v&k=v` over the sorted stringified
parameters when the parameter dict is nonempty. -/
def cache_key_base (path : String) (params : List (String × J)) : String :=
  let base := pyStrip path
  if params.isEmpty then base
  else
    let items := sortPairs (params.map (fun kv => (kv.1, pyStr kv.2)))
    base ++ "?" ++ String.intercalate "&" (items.map (fun kv => kv.1 ++ "=" ++ kv.2))

/-- `ingest._cache_key_for` with the SHA-1 hex digest abstracted as
`sha1`. -/
def cache_key_for (sha1 : String → String) (path : String)
    (params : List (String × J)) : String :=
  sha1 (cache_key_base path params)

/-- `ingest._cache_read`: if the cache file exists, parse it with
`json.loads` — there is no exception handling, so an unparseable file
raises (`Except.error`); a missing file is `none`. -/
def cache_read (parse : String → Option J) (fs : String → Option String)
    (key : String) : Except String (Option J) :=
  match fs key with
  | some content =>
    match parse content with
    | some j => .ok (some j)
    | none => .error "json.decoder.JSONDecodeError"
  | none => .ok none

/-- `ingest._get_or_fetch_json`: compute the key, read the cache (an
unparseable file propagates its parse error), short-circuit on a hit,
otherwise run the fetch (client GET + `raise_for_status` + `.json()`,
taken as the `fetch` parameter) and write through only when the body is
a dict.  Returns the data and the updated cache directory. -/
def get_or_fetch_json (sha1 : String → String) (parse : String → Option J)
    (fetch : Unit → Except String J) (fs : String → Option String)
    (path : String) (params : List (String × J)) :
    Except String (J × (String → Option String)) :=
  let key := cache_key_for sha1 path params
  match cache_read parse fs key with
  | .error e => .error e
  | .ok (some cached) => .ok (cached, fs)
  | .ok none => do
    let data ← fetch ()
    match data with
    | J.obj _ => .ok (data, fun k => if k = key then some (dumps data) else fs k)
    | _ => .ok (data, fs)

/-!
### The `ingest_now` action (`app/main.py`)

After fetching the bundle it records one snapshot per resource and
then calls `persist_bundle`.  The claims about "running the ingestion
persistence" concern this snapshot-then-persist step on a given
bundle.
-/
/-- The endpoint table of `action_ingest_now`. -/
def ingestEndpoints (league_key : String) : List (String × String) :=
  [("league", "league/" ++ league_key),
   ("teams", "league/" ++ league_key ++ "/teams"),
   ("rosters", "league/" ++ league_key ++ "/rosters"),
   ("players", "league/" ++ league_key ++ "/players"),
   ("matchups", "league/" ++ league_key ++ "/scoreboard"),
   ("standings", "league/" ++ league_key ++ "/standings"),
   ("transactions", "league/" ++ league_key ++ "/transactions")]

/-- `endpoints.get(name, name)`. -/
def epOf (league_key name : String) : String :=
  match (ingestEndpoints league_key).find? (fun kv => kv.1 == name) with
  | some kv => kv.2
  | none => name

/-- The snapshot loop of `action_ingest_now`: one `record_snapshot`
per bundle resource, with `params={"format": "json"}` and
`raw=json.dumps(data)`. -/
def snapshotBundle (sha1 : String → String) (snaps : List SnapRow)
    (league_key : String) (bundle : List (String × J)) : List SnapRow :=
  bundle.foldl (fun t nd =>
    (record_snapshot sha1 t (epOf league_key nd.1) [("format", J.s "json")]
      (dumps nd.2)).1) snaps

/-- One run of the ingestion persistence on an already-fetched bundle:
snapshot every resource, then `persist_bundle`. -/
def ingest_now (sha1 : String → String) (db : DB) (league_key : String)
    (bundle : List (String × J)) : Except String DB :=
  persist_bundle
    { db with snapshots := snapshotBundle sha1 db.snapshots league_key bundle }
    bundle

/-- The shape of the matchup writes of `persist_bundle`: a
concatenation of symmetric pairs, each with a resolved (nonzero) week
and two non-empty team ids, the second row swapping team and
opponent. -/
inductive SymPairs : List Call → Prop
  | nil : SymPairs []
  | cons (w : Int) (a b : String) (rest : List Call) :
      w ≠ 0 → a ≠ "" → b ≠ "" → SymPairs rest →
      SymPairs (Call.matchup ⟨w, a, b, false, J.null, J.null, J.null⟩ ::
        Call.matchup ⟨w, b, a, false, J.null, J.null, J.null⟩ :: rest)

/-- The empty store (fresh database after `migrate`). -/
def dbEmpty : DB := ⟨[], [], [], [], [], []⟩

/-- A minimal bundle containing one plain-list transaction: the input
on which double ingestion demonstrably grows `transactions_raw`. -/
def txBundle : List (String × J) :=
  [("transactions", J.arr [J.obj [("type", J.s "add")]])]

/-- Last-occurrence lookup in a sequence of entries: the value the
left-to-right merge leaves for a key. -/
def lastVal : List (String × J) → String → Option J
  | [], _ => none
  | (k1, v) :: rest, k =>
    match lastVal rest k with
    | some v2 => some v2
    | none => if k1 = k then some v else none

/-- The managers value of the C8 example. -/
def c8Managers : J := J.arr [J.obj [("manager", J.obj [("nickname", J.s "Bob")])]]

/-- The wrapped list-of-singletons of the C8 example. -/
def c8TeamList : List J :=
  [J.obj [("team_key", J.s "1.t.1")], J.obj [("name", J.s "Alpha")],
    J.obj [("managers", c8Managers)]]

/-- A full Yahoo teams envelope wrapping the C8 example list. -/
def c8Teams : J :=
  J.obj [("fantasy_content", J.obj [("league", J.arr
    [J.obj [("league_key", J.s "l")],
     J.obj [("teams", J.obj [("0", J.obj [("team", J.arr c8TeamList)]),
       ("count", J.i 1)])]])])]

/-- A concrete Yahoo envelope transactions resource (entries of the
top-level dict). -/
def c10Kvs : List (String × J) :=
  [("fantasy_content", J.obj [("league", J.arr
    [J.obj [("league_key", J.s "l")],
     J.obj [("transactions", J.obj [("0", J.obj [("transaction", J.arr
       [J.obj [("type", J.s "add")], J.obj [("transaction_key", J.s "t.1")]])]),
       ("count", J.i 1)])]])])]

/-- A concrete Yahoo scoreboard envelope with one week-3 matchup
between teams `A` and `B`. -/
def c7Matchups : J :=
  J.obj [("fantasy_content", J.obj [("league", J.arr
    [J.obj [("league_key", J.s "l")],
     J.obj [("scoreboard", J.obj [("week", J.s "3"),
       ("0", J.obj [("matchups", J.obj [
         ("0", J.obj [("matchup", J.obj [
            ("0", J.obj [("teams", J.obj [
               ("0", J.obj [("team", J.arr [J.obj [("team_key", J.s "A")]])]),
               ("1", J.obj [("team", J.arr [J.obj [("team_key", J.s "B")]])]),
               ("count", J.i 2)])])])]),
         ("count", J.i 1)])])])]])])]

/-- The store calls of `txBundle`. -/
def c1Calls : List Call :=
  [Call.tx ⟨some "add", none, dumps (J.obj [("type", J.s "add")])⟩]

/-- The store after the first persistence run on `txBundle`. -/
def c1Db1 : DB :=
  applyCalls
    { dbEmpty with
      snapshots := snapshotBundle id dbEmpty.snapshots "nfl.l.1" txBundle }
    c1Calls

/-!
## Lemmas, sanity checks and claim theorems
-/

section KeyedTable

variable {K C V : Type} [DecidableEq K]

variable (key : C → K) (interp : C → Option V → V)

theorem lookupT_upsertT (t : List (K × V)) (k k1 : K) (f : Option V → V) :
    lookupT (upsertT t k f) k1 =
      if k = k1 then some (f (lookupT t k)) else lookupT t k1 := by
  induction t with
  | nil => by_cases h : k = k1 <;> simp [upsertT, lookupT, h]
  | cons hd tl ih =>
    obtain ⟨k2, v2⟩ := hd
    by_cases h2 : k2 = k
    · subst h2
      by_cases h1 : k2 = k1 <;> simp [upsertT, lookupT, h1]
    · by_cases h1 : k2 = k1
      · subst h1
        have : ¬ k = k2 := fun h => h2 h.symm
        simp [upsertT, lookupT, h2, this]
      · simp [upsertT, lookupT, h2, h1, ih]

theorem keysT_upsertT (t : List (K × V)) (k : K) (f : Option V → V) :
    keysT (upsertT t k f) =
      if k ∈ keysT t then keysT t else keysT t ++ [k] := by
  induction t with
  | nil => simp [upsertT, keysT]
  | cons hd tl ih =>
    obtain ⟨k2, v2⟩ := hd
    by_cases h2 : k2 = k
    · subst h2
      simp [upsertT, keysT]
    · have hne : ¬ k = k2 := fun h => h2 h.symm
      have hstep : upsertT ((k2, v2) :: tl) k f = (k2, v2) :: upsertT tl k f := by
        simp [upsertT, h2]
      rw [hstep]
      show k2 :: keysT (upsertT tl k f) = _
      rw [ih]
      by_cases hmem : k ∈ List.map Prod.fst tl <;>
        simp only [keysT] at hmem ⊢ <;> simp [hmem, hne]

theorem nodup_keysT_upsertT (t : List (K × V)) (k : K) (f : Option V → V)
    (h : (keysT t).Nodup) : (keysT (upsertT t k f)).Nodup := by
  rw [keysT_upsertT]
  by_cases hmem : k ∈ keysT t
  · simpa [hmem] using h
  · simp only [hmem, if_false]
    refine List.Nodup.append h (List.nodup_singleton k) ?_
    intro a ha hak
    rw [List.mem_singleton] at hak
    subst hak
    exact hmem ha

theorem mem_keysT_upsertT_self (t : List (K × V)) (k : K) (f : Option V → V) :
    k ∈ keysT (upsertT t k f) := by
  rw [keysT_upsertT]
  by_cases hmem : k ∈ keysT t <;> simp [hmem]

theorem mem_keysT_upsertT_of (t : List (K × V)) (k k1 : K) (f : Option V → V)
    (h : k1 ∈ keysT t) : k1 ∈ keysT (upsertT t k f) := by
  rw [keysT_upsertT]
  by_cases hmem : k ∈ keysT t <;> simp [hmem, h]

theorem lookupT_applyT (cs : List C) (t : List (K × V)) (k : K) :
    lookupT (applyT key interp cs t) k = chainT key interp cs k (lookupT t k) := by
  induction cs generalizing t with
  | nil => simp [applyT, chainT]
  | cons c cs ih =>
    show lookupT (applyT key interp cs (upsertT t (key c) (interp c))) k = _
    rw [ih, lookupT_upsertT]
    by_cases h : key c = k <;> simp [chainT, h]

theorem mem_keysT_applyT_of (cs : List C) (t : List (K × V)) (k : K)
    (h : k ∈ keysT t) : k ∈ keysT (applyT key interp cs t) := by
  induction cs generalizing t with
  | nil => simpa [applyT] using h
  | cons c cs ih =>
    exact ih (upsertT t (key c) (interp c)) (mem_keysT_upsertT_of _ _ _ _ h)

theorem mem_keysT_applyT_calls (cs : List C) (t : List (K × V)) (c : C)
    (h : c ∈ cs) : key c ∈ keysT (applyT key interp cs t) := by
  induction cs generalizing t with
  | nil => cases h
  | cons c1 cs ih =>
    rcases List.mem_cons.mp h with h1 | h1
    · subst h1
      exact mem_keysT_applyT_of key interp cs _ _ (mem_keysT_upsertT_self _ _ _)
    · exact ih _ h1

theorem keysT_applyT_of_sub (cs : List C) (t : List (K × V))
    (h : ∀ c ∈ cs, key c ∈ keysT t) :
    keysT (applyT key interp cs t) = keysT t := by
  induction cs generalizing t with
  | nil => simp [applyT]
  | cons c cs ih =>
    show keysT (applyT key interp cs (upsertT t (key c) (interp c))) = _
    have hk : key c ∈ keysT t := h c (List.mem_cons_self _ _)
    have hkeys : keysT (upsertT t (key c) (interp c)) = keysT t := by
      rw [keysT_upsertT]; simp [hk]
    rw [ih _ (by intro c1 hc1; rw [hkeys]; exact h c1 (List.mem_cons_of_mem _ hc1)),
      hkeys]

theorem nodup_keysT_applyT (cs : List C) (t : List (K × V))
    (h : (keysT t).Nodup) : (keysT (applyT key interp cs t)).Nodup := by
  induction cs generalizing t with
  | nil => simpa [applyT] using h
  | cons c cs ih => exact ih _ (nodup_keysT_upsertT _ _ _ h)

theorem lookupT_eq_none_of_not_mem (t : List (K × V)) (k : K)
    (h : k ∉ keysT t) : lookupT t k = none := by
  induction t with
  | nil => rfl
  | cons hd tl ih =>
    obtain ⟨k1, v1⟩ := hd
    simp only [keysT, List.map_cons, List.mem_cons, not_or] at h
    have : k1 ≠ k := fun hh => h.1 hh.symm
    simpa [lookupT, this] using ih (by simpa [keysT] using h.2)

/-- Tables with no duplicate keys, the same key column, and the same
lookups are equal. -/
theorem tableExt : ∀ (t1 t2 : List (K × V)),
    (keysT t1).Nodup → keysT t1 = keysT t2 →
    (∀ k, lookupT t1 k = lookupT t2 k) → t1 = t2 := by
  intro t1
  induction t1 with
  | nil =>
    intro t2 _ hkeys _
    cases t2 with
    | nil => rfl
    | cons hd tl => exact absurd hkeys (by simp [keysT])
  | cons hd tl ih =>
    intro t2 hnd hlk hlook
    obtain ⟨k1, v1⟩ := hd
    cases t2 with
    | nil => exact absurd hlk (by simp [keysT])
    | cons hd2 tl2 =>
      obtain ⟨k2, v2⟩ := hd2
      have hkeys : k1 :: keysT tl = k2 :: keysT tl2 := hlk
      injection hkeys with hk htl
      subst hk
      have hv : v1 = v2 := by
        have := hlook k1
        simpa [lookupT] using this
      subst hv
      have hnd' : (k1 :: keysT tl).Nodup := hnd
      rw [List.nodup_cons] at hnd'
      obtain ⟨hk1tl, hndtl⟩ := hnd'
      have hk1tl2 : k1 ∉ keysT tl2 := htl ▸ hk1tl
      have htails : tl = tl2 := by
        refine ih tl2 hndtl htl ?_
        intro k
        by_cases hkk : k1 = k
        · subst hkk
          rw [lookupT_eq_none_of_not_mem _ _ hk1tl,
            lookupT_eq_none_of_not_mem _ _ hk1tl2]
        · have := hlook k
          simpa [lookupT, hkk] using this
      rw [htails]

theorem chainT_cons (c : C) (cs : List C) (k : K) (o : Option V) :
    chainT key interp (c :: cs) k o =
      chainT key interp cs k (if key c = k then some (interp c o) else o) := rfl

/-- When every call overwrites the row without reading the old value,
replaying a call list on a single key is idempotent. -/
theorem chainT_idem_const
    (hconst : ∀ c o1 o2, interp c o1 = interp c o2) (cs : List C) (k : K) :
    ∀ o, chainT key interp cs k (chainT key interp cs k o) =
      chainT key interp cs k o := by
  induction cs with
  | nil => intro o; rfl
  | cons c cs ih =>
    intro o
    by_cases h : key c = k
    · have hs : ∀ x : Option V,
          (if key c = k then some (interp c x) else x) = some (interp c o) := by
        intro x; rw [if_pos h, hconst c x o]
      rw [chainT_cons, hs, chainT_cons, hs]
    · have hs : ∀ x : Option V,
          (if key c = k then some (interp c x) else x) = x := by
        intro x; rw [if_neg h]
      rw [chainT_cons, hs, chainT_cons, hs]
      exact ih o

theorem chainT_eq_chainAll (cs : List C) (k : K) (o : Option V) :
    chainT key interp cs k o =
      chainAll interp (cs.filter (fun c => decide (key c = k))) o := by
  induction cs generalizing o with
  | nil => rfl
  | cons c cs ih =>
    by_cases h : key c = k
    · rw [chainT_cons]
      simp only [h, if_pos]
      rw [List.filter_cons_of_pos (by simpa using h)]
      exact ih _
    · rw [chainT_cons]
      simp only [h, if_neg, ite_false]
      rw [List.filter_cons_of_neg (by simpa using h)]
      exact ih _

theorem chainAll_snoc (rs : List C) (c : C) (o : Option V) :
    chainAll interp (rs ++ [c]) o = some (interp c (chainAll interp rs o)) := by
  simp [chainAll, List.foldl_append]

/-- Replaying the same call list over an already-applied table is a
no-op, provided replaying is idempotent on every single key. -/
theorem applyT_replay (cs : List C) (t : List (K × V))
    (hnd : (keysT t).Nodup)
    (hidem : ∀ k o, chainT key interp cs k (chainT key interp cs k o) =
      chainT key interp cs k o) :
    applyT key interp cs (applyT key interp cs t) = applyT key interp cs t := by
  have hndT : (keysT (applyT key interp cs t)).Nodup :=
    nodup_keysT_applyT key interp cs t hnd
  refine tableExt _ _ (nodup_keysT_applyT key interp cs _ hndT) ?_ ?_
  · exact keysT_applyT_of_sub key interp cs _
      (fun c hc => mem_keysT_applyT_calls key interp cs t c hc)
  · intro k
    rw [lookupT_applyT, lookupT_applyT]
    exact hidem k _

end KeyedTable

example : pyIsDigit "10" = true := by decide

example : pyIsDigit "" = false := by decide

example : pyIsDigit "1a" = false := by decide

theorem players_applyCalls (cs : List Call) (db : DB) :
    (applyCalls db cs).players =
      applyT playerKey interpPlayer (playerCallsOf cs) db.players := by
  induction cs generalizing db with
  | nil => rfl
  | cons c cs ih =>
    have hstep : applyCalls db (c :: cs) = applyCalls (applyCall db c) cs := rfl
    rw [hstep, ih]
    cases c <;> rfl

theorem teams_applyCalls (cs : List Call) (db : DB) :
    (applyCalls db cs).teams =
      applyT teamKey interpTeam (teamCallsOf cs) db.teams := by
  induction cs generalizing db with
  | nil => rfl
  | cons c cs ih =>
    have hstep : applyCalls db (c :: cs) = applyCalls (applyCall db c) cs := rfl
    rw [hstep, ih]
    cases c <;> rfl

theorem rosters_applyCalls (cs : List Call) (db : DB) :
    (applyCalls db cs).rosters =
      applyT rosterKey interpRoster (rosterCallsOf cs) db.rosters := by
  induction cs generalizing db with
  | nil => rfl
  | cons c cs ih =>
    have hstep : applyCalls db (c :: cs) = applyCalls (applyCall db c) cs := rfl
    rw [hstep, ih]
    cases c <;> rfl

theorem matchups_applyCalls (cs : List Call) (db : DB) :
    (applyCalls db cs).matchups =
      applyT matchupKey interpMatchup (matchupCallsOf cs) db.matchups := by
  induction cs generalizing db with
  | nil => rfl
  | cons c cs ih =>
    have hstep : applyCalls db (c :: cs) = applyCalls (applyCall db c) cs := rfl
    rw [hstep, ih]
    cases c <;> rfl

theorem transactions_applyCalls (cs : List Call) (db : DB) :
    (applyCalls db cs).transactions_raw =
      db.transactions_raw ++ txRowsOf cs := by
  induction cs generalizing db with
  | nil => simp [applyCalls, txRowsOf]
  | cons c cs ih =>
    have hstep : applyCalls db (c :: cs) = applyCalls (applyCall db c) cs := rfl
    rw [hstep, ih]
    cases c <;> simp [applyCall, txRowsOf, insert_transaction_raw]

theorem snapshots_applyCalls (cs : List Call) (db : DB) :
    (applyCalls db cs).snapshots = db.snapshots := by
  induction cs generalizing db with
  | nil => rfl
  | cons c cs ih =>
    have hstep : applyCalls db (c :: cs) = applyCalls (applyCall db c) cs := rfl
    rw [hstep, ih]
    cases c <;> rfl

/-!
### Replay idempotence of the entity upserts

Replaying the very same sequence of upsert calls over the store leaves
players, teams, rosters and matchups unchanged: the first three kinds
overwrite whole rows keyed by natural key, and the rosters
slot-coalescing update stabilises after one round.
-/
theorem coal_assoc (x y z : J) : coal (coal x y) z = coal x (coal y z) := by
  by_cases hx : x = J.null <;> simp [coal, hx]

theorem coal_null_right (x : J) : coal x J.null = x := by
  by_cases hx : x = J.null <;> simp [coal, hx]

/-- The repeated-coalesce absorption used for roster replay. -/
theorem coal_absorb (x l a : J) :
    coal x (coal l (coal x (coal l a))) = coal x (coal l a) := by
  by_cases hx : x = J.null <;> by_cases hl : l = J.null <;> simp [coal, hx, hl]

theorem slotOfO_chainAll (rs : List RosterCall) (o : Option RosterVal) :
    slotOfO (chainAll interpRoster rs o) = sAll rs (slotOfO o) := by
  induction rs generalizing o with
  | nil => rfl
  | cons c rs ih =>
    have h1 : chainAll interpRoster (c :: rs) o =
        chainAll interpRoster rs (some (interpRoster c o)) := rfl
    rw [h1, ih]
    rfl

theorem sAll_linear (rs : List RosterCall) (a : J) :
    sAll rs a = coal (sAll rs J.null) a := by
  induction rs generalizing a with
  | nil => simp [sAll, coal]
  | cons c rs ih =>
    have h1 : ∀ x, sAll (c :: rs) x = sAll rs (coal c.slot x) := fun _ => rfl
    rw [h1, h1, ih (coal c.slot a), ih (coal c.slot J.null), coal_null_right,
      coal_assoc]

theorem chainAll_roster_idem (rs : List RosterCall) (o : Option RosterVal) :
    chainAll interpRoster rs (chainAll interpRoster rs o) =
      chainAll interpRoster rs o := by
  induction rs using List.reverseRecOn generalizing o with
  | nil => rfl
  | append_singleton rs c ih =>
    rw [chainAll_snoc, chainAll_snoc]
    have hslot : slotOfO (chainAll interpRoster rs
        (some (interpRoster c (chainAll interpRoster rs o)))) =
        coal (sAll rs J.null)
          (coal c.slot (coal (sAll rs J.null) (slotOfO o))) := by
      rw [slotOfO_chainAll]
      have : slotOfO (some (interpRoster c (chainAll interpRoster rs o))) =
          coal c.slot (slotOfO (chainAll interpRoster rs o)) := rfl
      rw [this, slotOfO_chainAll, sAll_linear rs (slotOfO o),
        sAll_linear rs (coal c.slot (coal (sAll rs J.null) (slotOfO o)))]
    show some (RosterVal.mk c.status (coal c.slot (slotOfO (chainAll interpRoster rs
        (some (interpRoster c (chainAll interpRoster rs o))))))) =
      some (RosterVal.mk c.status (coal c.slot (slotOfO (chainAll interpRoster rs o))))
    rw [hslot, slotOfO_chainAll, sAll_linear rs (slotOfO o), coal_absorb]

/-- Replaying any roster-call list on a single key is idempotent. -/
theorem chainT_roster_idem (cs : List RosterCall) (k : String × String × Int)
    (o : Option RosterVal) :
    chainT rosterKey interpRoster cs k (chainT rosterKey interpRoster cs k o) =
      chainT rosterKey interpRoster cs k o := by
  simp only [chainT_eq_chainAll]
  exact chainAll_roster_idem _ _

/-!
### Concrete sanity checks of the embedding
-/
example :
    extract_items (J.obj [("0", J.obj [("a", J.i 0)]), ("1", J.obj [("a", J.i 1)]),
      ("10", J.obj [("a", J.i 10)]), ("2", J.obj [("a", J.i 2)]), ("count", J.i 4)]) [] =
    [J.obj [("a", J.i 0)], J.obj [("a", J.i 1)], J.obj [("a", J.i 10)],
      J.obj [("a", J.i 2)]] := by decide

example :
    flatten_yahoo_list (J.arr [J.obj [("team_key", J.s "1.t.1")],
      J.obj [("name", J.s "Alpha")],
      J.obj [("managers", J.arr [J.obj [("manager", J.obj [("nickname", J.s "Bob")])]])]]) =
    [("team_key", J.s "1.t.1"), ("name", J.s "Alpha"),
      ("managers", J.arr [J.obj [("manager", J.obj [("nickname", J.s "Bob")])]])] := by
  decide

example :
    teamWrapItem (J.obj [("team", J.arr [J.arr [J.obj [("team_key", J.s "1.t.1")],
      J.obj [("name", J.s "Alpha")],
      J.obj [("managers", J.arr [J.obj [("manager", J.obj [("nickname", J.s "Bob")])]])]]])]) =
    .ok [Call.team ⟨"1.t.1", "Alpha", J.s "Bob", J.null⟩] := by decide

/-!
## Claims

One theorem per claim of the specification audit, with witnesses for
hypothesised theorems and concrete counterexamples where the
specification and the code disagree.
-/
/-- C9: the cache-key serialization is not injective — the distinct
parameter dicts `{"a": "1&b=2"}` and `{"a": "1", "b": "2"}` both
serialize to `path?a=1&b=2`, so they share one digest for every hash
function, and a cached response stored for one request is returned for
the other. -/
theorem cache_key_not_injective :
    ([("a", J.s "1&b=2")] : List (String × J)) ≠ [("a", J.s "1"), ("b", J.s "2")] ∧
    cache_key_base "path" [("a", J.s "1&b=2")] = "path?a=1&b=2" ∧
    cache_key_base "path" [("a", J.s "1"), ("b", J.s "2")] = "path?a=1&b=2" ∧
    ∀ sha1 : String → String,
      cache_key_for sha1 "path" [("a", J.s "1&b=2")] =
        cache_key_for sha1 "path" [("a", J.s "1"), ("b", J.s "2")] := by
  refine ⟨by decide, by decide, by decide, fun sha1 => ?_⟩
  unfold cache_key_for
  exact congrArg sha1 (by decide)

/-- C5: the first `record_snapshot` call for a content hash not yet in
the table inserts exactly one row and returns `(hash, true)`; any
later call whose `(endpoint, sorted params, raw)` content hashes
identically returns the same hash with `false`, inserts no duplicate
row, and (the constraint violation being caught internally) returns
normally. -/
theorem record_snapshot_insert_once
    (sha1 : String → String) (t : List SnapRow) (e : String)
    (p : List (String × J)) (r : String)
    (hfresh : t.any (fun row => row.content_hash == snapDigest sha1 e p r) = false) :
    record_snapshot sha1 t e p r =
      (t ++ [⟨e, dumps (J.obj p), snapDigest sha1 e p r, r⟩],
        snapDigest sha1 e p r, true) ∧
    ∀ e2 p2 r2, snapDigest sha1 e2 p2 r2 = snapDigest sha1 e p r →
      record_snapshot sha1
          (t ++ [⟨e, dumps (J.obj p), snapDigest sha1 e p r, r⟩]) e2 p2 r2 =
        (t ++ [⟨e, dumps (J.obj p), snapDigest sha1 e p r, r⟩],
          snapDigest sha1 e p r, false) := by
  constructor
  · simp [record_snapshot, hfresh]
  · intro e2 p2 r2 h2
    have hany : (t ++ [(⟨e, dumps (J.obj p), snapDigest sha1 e p r, r⟩ : SnapRow)]).any
        (fun row => row.content_hash == snapDigest sha1 e2 p2 r2) = true := by
      rw [h2]
      simp
    simp [record_snapshot, hany, h2]

/-- Witness for C5 at a concrete input (`sha1 := id`, empty table). -/
theorem record_snapshot_insert_once_witness :
    (([] : List SnapRow).any (fun row => row.content_hash ==
      snapDigest id "league/1" [("format", J.s "json")] "raw") = false) ∧
    (record_snapshot id [] "league/1" [("format", J.s "json")] "raw" =
      ([⟨"league/1", dumps (J.obj [("format", J.s "json")]),
        snapDigest id "league/1" [("format", J.s "json")] "raw", "raw"⟩],
        snapDigest id "league/1" [("format", J.s "json")] "raw", true) ∧
    ∀ e2 p2 r2, snapDigest id e2 p2 r2 =
        snapDigest id "league/1" [("format", J.s "json")] "raw" →
      record_snapshot id
          [⟨"league/1", dumps (J.obj [("format", J.s "json")]),
            snapDigest id "league/1" [("format", J.s "json")] "raw", "raw"⟩] e2 p2 r2 =
        ([⟨"league/1", dumps (J.obj [("format", J.s "json")]),
          snapDigest id "league/1" [("format", J.s "json")] "raw", "raw"⟩],
          snapDigest id "league/1" [("format", J.s "json")] "raw", false)) :=
  ⟨rfl, record_snapshot_insert_once id [] "league/1" [("format", J.s "json")] "raw" rfl⟩

/-- C6: on an existing rosters row, an upsert with `slot=NULL` keeps
the stored non-null slot while overwriting status with the incoming
value (even NULL); an upsert with a non-null slot overwrites the
slot. -/
theorem upsert_roster_slot_sticky
    (t : List ((String × String × Int) × RosterVal))
    (team_id player_id : String) (week : Int) (r : RosterVal) (s0 : J)
    (hrow : lookupT t (team_id, player_id, week) = some r)
    (hslot : r.slot = s0) (hs0 : s0 ≠ J.null) (status_in : J) :
    lookupT (upsert_roster t team_id player_id week status_in J.null)
        (team_id, player_id, week) = some ⟨status_in, s0⟩ ∧
    ∀ slot_in : J, slot_in ≠ J.null →
      lookupT (upsert_roster t team_id player_id week status_in slot_in)
          (team_id, player_id, week) = some ⟨status_in, slot_in⟩ := by
  constructor
  · rw [upsert_roster, lookupT_upsertT, if_pos rfl, hrow]
    simp [interpRoster, slotOfO, coal, hslot]
  · intro slot_in hs
    rw [upsert_roster, lookupT_upsertT, if_pos rfl, hrow]
    simp [interpRoster, slotOfO, coal, hs]

/-- Witness for C6 at a concrete roster table. -/
theorem upsert_roster_slot_sticky_witness :
    (lookupT [((("t1", "p1", (1 : Int)), (⟨J.s "BN", J.s "RB"⟩ : RosterVal)))]
      ("t1", "p1", (1 : Int)) = some (⟨J.s "BN", J.s "RB"⟩ : RosterVal)) ∧
    ((⟨J.s "BN", J.s "RB"⟩ : RosterVal).slot = J.s "RB") ∧
    (J.s "RB" ≠ J.null) ∧
    (lookupT (upsert_roster [((("t1", "p1", (1 : Int)), ⟨J.s "BN", J.s "RB"⟩))]
        "t1" "p1" 1 J.null J.null) ("t1", "p1", (1 : Int)) =
      some ⟨J.null, J.s "RB"⟩ ∧
    ∀ slot_in : J, slot_in ≠ J.null →
      lookupT (upsert_roster [((("t1", "p1", (1 : Int)), ⟨J.s "BN", J.s "RB"⟩))]
          "t1" "p1" 1 J.null slot_in) ("t1", "p1", (1 : Int)) =
        some ⟨J.null, slot_in⟩) :=
  ⟨by decide, by decide, by decide,
    upsert_roster_slot_sticky
      [((("t1", "p1", (1 : Int)), (⟨J.s "BN", J.s "RB"⟩ : RosterVal)))]
      "t1" "p1" 1 (⟨J.s "BN", J.s "RB"⟩ : RosterVal) (J.s "RB")
      (by decide) rfl (by decide) J.null⟩

/-- C4 amended: when the cache file for the key exists but its content
does not parse as JSON, `_get_or_fetch_json` propagates the parse
error — the fetch is not attempted (the result is the same error for
every fetch function) and the cache read is not treated as a miss. -/
theorem get_or_fetch_json_corrupt_cache_raises
    (sha1 : String → String) (parse : String → Option J)
    (fetch : Unit → Except String J) (fs : String → Option String)
    (path : String) (params : List (String × J)) (content : String)
    (hfile : fs (cache_key_for sha1 path params) = some content)
    (hbad : parse content = none) :
    get_or_fetch_json sha1 parse fetch fs path params =
      .error "json.decoder.JSONDecodeError" := by
  simp [get_or_fetch_json, cache_read, hfile, hbad]

/-- Witness for the C4 amended theorem at a concrete corrupt cache
(the stub `parse` rejects the stored content, standing for
`json.loads` on a non-JSON file). -/
theorem get_or_fetch_json_corrupt_cache_raises_witness :
    ((fun k => if k = "K" then some "not json" else none : String → Option String)
        (cache_key_for (fun _ => "K") "path" []) = some "not json") ∧
    ((fun s => if s = "not json" then none else some (J.obj [])) "not json" =
      (none : Option J)) ∧
    get_or_fetch_json (fun _ => "K")
        (fun s => if s = "not json" then none else some (J.obj []))
        (fun _ => .ok (J.obj [("ok", J.b true)]))
        (fun k => if k = "K" then some "not json" else none) "path" [] =
      .error "json.decoder.JSONDecodeError" :=
  ⟨rfl, rfl,
    get_or_fetch_json_corrupt_cache_raises (fun _ => "K")
      (fun s => if s = "not json" then none else some (J.obj []))
      (fun _ => .ok (J.obj [("ok", J.b true)]))
      (fun k => if k = "K" then some "not json" else none) "path" [] "not json"
      rfl rfl⟩

/-- C4 counterexample: with the cache file present but unparseable,
`_get_or_fetch_json` returns the parse error instead of fetching,
whereas with the file absent (a true miss) the very same fetch
succeeds and its body is returned — so a corrupt cache file is *not*
treated as a miss and the error does propagate to the caller. -/
theorem get_or_fetch_json_corrupt_cache_cex :
    get_or_fetch_json (fun _ => "K")
        (fun s => if s = "not json" then none else some (J.obj []))
        (fun _ => .ok (J.obj [("ok", J.b true)]))
        (fun k => if k = "K" then some "not json" else none) "path" [] =
      .error "json.decoder.JSONDecodeError" ∧
    (get_or_fetch_json (fun _ => "K")
        (fun s => if s = "not json" then none else some (J.obj []))
        (fun _ => .ok (J.obj [("ok", J.b true)]))
        (fun _ => none) "path" []).map Prod.fst =
      .ok (J.obj [("ok", J.b true)]) :=
  ⟨rfl, rfl⟩

theorem digitItems_go (kvs : List (String × J)) (acc : List J) :
    kvs.foldl (fun items kv =>
      if pyIsDigit kv.1 && isObjB kv.2 then items ++ [kv.2] else items) acc =
    acc ++ kvs.filterMap (fun kv =>
      if pyIsDigit kv.1 && isObjB kv.2 then some kv.2 else none) := by
  induction kvs generalizing acc with
  | nil => simp
  | cons kv rest ih =>
    by_cases h : (pyIsDigit kv.1 && isObjB kv.2) = true
    · simp only [List.foldl_cons, List.filterMap_cons, h, if_pos]
      rw [ih]
      simp
    · rw [Bool.not_eq_true] at h
      simp only [List.foldl_cons, List.filterMap_cons, h]
      rw [ih]
      simp

theorem filterMap_if_sublist (kvs : List (String × J)) :
    (kvs.filterMap (fun kv =>
      if pyIsDigit kv.1 && isObjB kv.2 then some kv.2 else none)).Sublist
        (kvs.map Prod.snd) := by
  induction kvs with
  | nil => simp
  | cons kv rest ih =>
    by_cases h : (pyIsDigit kv.1 && isObjB kv.2) = true
    · simp only [List.filterMap_cons, h, if_pos, List.map_cons]
      exact List.Sublist.cons₂ _ ih
    · rw [Bool.not_eq_true] at h
      simp only [List.filterMap_cons, h, List.map_cons]
      exact List.Sublist.cons _ ih

/-- C2 amended: indexed-map extraction yields exactly the entries
whose key is a decimal digit string and whose value is a dict, in the
object's key *insertion* order (a subsequence of the object's value
sequence); non-digit keys and digit-keyed non-dict values are
discarded.  Ascending numeric order is produced only when the
insertion order is already numerically ascending. -/
theorem extract_items_insertion_order (kvs : List (String × J)) :
    extract_items (J.obj kvs) [] =
      kvs.filterMap (fun kv =>
        if pyIsDigit kv.1 && isObjB kv.2 then some kv.2 else none) ∧
    (extract_items (J.obj kvs) []).Sublist (kvs.map Prod.snd) := by
  have h : extract_items (J.obj kvs) [] =
      kvs.filterMap (fun kv =>
        if pyIsDigit kv.1 && isObjB kv.2 then some kv.2 else none) := by
    show digitItems kvs = _
    unfold digitItems
    rw [digitItems_go]
    simp
  exact ⟨h, h ▸ filterMap_if_sublist kvs⟩

/-- C2 counterexample: an object whose digit keys are inserted in the
order `"0", "1", "10", "2"` extracts its items in that insertion
order, not in the ascending numeric order `0, 1, 2, 10` the claim
requires. -/
theorem extract_items_numeric_order_cex :
    extract_items (J.obj [("0", J.obj [("v", J.i 0)]), ("1", J.obj [("v", J.i 1)]),
        ("10", J.obj [("v", J.i 10)]), ("2", J.obj [("v", J.i 2)])]) [] =
      [J.obj [("v", J.i 0)], J.obj [("v", J.i 1)], J.obj [("v", J.i 10)],
        J.obj [("v", J.i 2)]] ∧
    extract_items (J.obj [("0", J.obj [("v", J.i 0)]), ("1", J.obj [("v", J.i 1)]),
        ("10", J.obj [("v", J.i 10)]), ("2", J.obj [("v", J.i 2)])]) [] ≠
      [J.obj [("v", J.i 0)], J.obj [("v", J.i 1)], J.obj [("v", J.i 2)],
        J.obj [("v", J.i 10)]] := by
  exact ⟨by decide, by decide⟩

/-- C3 amended: at a list node of two or more elements the navigator
consults only the element at index 1: when that element is a dict
lacking the requested key, navigation fails and the extraction is
empty — even if another element (e.g. at index 0) is a dict containing
the key; when the index-1 dict does contain the key, navigation
descends into its value. -/
theorem extract_items_index1_only
    (x0 : J) (rest : List J) (key : String) (keys : List String)
    (kvs1 : List (String × J)) (hkey : key ≠ "league") :
    (hasKeyKV kvs1 key = false →
      extract_items (J.arr (x0 :: J.obj kvs1 :: rest)) (key :: keys) = []) ∧
    (hasKeyKV kvs1 key = true →
      navD (J.arr (x0 :: J.obj kvs1 :: rest)) (key :: keys) =
        navD (pyGetD kvs1 key (J.obj [])) keys) := by
  constructor
  · intro hno
    simp [extract_items, navD, hkey, hno]
  · intro hyes
    simp [navD, hkey, hyes]

/-- Witness for the C3 amended theorem: key `"teams"`, the index-0
element holding the sub-resource, the index-1 element lacking it. -/
theorem extract_items_index1_only_witness :
    ("teams" ≠ "league") ∧
    ((hasKeyKV [("other", J.i 1)] "teams" = false →
      extract_items (J.arr [J.obj [("teams", J.obj [])], J.obj [("other", J.i 1)]])
        ["teams"] = []) ∧
    (hasKeyKV [("other", J.i 1)] "teams" = true →
      navD (J.arr [J.obj [("teams", J.obj [])], J.obj [("other", J.i 1)]])
        ["teams"] = navD (pyGetD [("other", J.i 1)] "teams" (J.obj [])) [])) :=
  ⟨by decide,
    extract_items_index1_only (J.obj [("teams", J.obj [])]) [] "teams" []
      [("other", J.i 1)] (by decide)⟩

/-- C3 counterexample: with the teams sub-resource dict at index 0 of
the two-element `league` list, `_extract_items` returns the empty
sequence; the mirrored payload with the same dict at index 1 yields
the record.  The navigator does not "pick the element that is a dict
containing the next requested key, whichever position it occupies". -/
theorem navigator_index0_missed_cex :
    extract_items (J.obj [("fantasy_content", J.obj [("league", J.arr
        [J.obj [("teams", J.obj [("0", J.obj [("team", J.arr [J.obj
          [("team_key", J.s "1.t.1")]])]), ("count", J.i 1)])],
         J.obj [("other", J.i 1)]])])])
      ["fantasy_content", "league", "teams"] = [] ∧
    extract_items (J.obj [("fantasy_content", J.obj [("league", J.arr
        [J.obj [("other", J.i 1)],
         J.obj [("teams", J.obj [("0", J.obj [("team", J.arr [J.obj
          [("team_key", J.s "1.t.1")]])]), ("count", J.i 1)])]])])])
      ["fantasy_content", "league", "teams"] =
      [J.obj [("team", J.arr [J.obj [("team_key", J.s "1.t.1")]])]] := by
  exact ⟨by decide, by decide⟩

theorem getKV_setKV (d : List (String × J)) (k1 : String) (v : J) (k : String) :
    getKV (setKV d k1 v) k = if k1 = k then some v else getKV d k := by
  induction d with
  | nil =>
    by_cases h : k1 = k <;> simp [setKV, getKV, h]
  | cons hd tl ih =>
    obtain ⟨k2, v2⟩ := hd
    by_cases h2 : k2 = k1
    · subst h2
      by_cases h : k2 = k <;> simp [setKV, getKV, h]
    · have hstep : setKV ((k2, v2) :: tl) k1 v = (k2, v2) :: setKV tl k1 v := by
        simp [setKV, h2]
      rw [hstep]
      by_cases h : k2 = k
      · subst h
        have hk1 : ¬ k1 = k2 := fun hh => h2 hh.symm
        simp [getKV, hk1]
      · simp [getKV, h, ih]

theorem getKV_updKV (base upd : List (String × J)) (k : String) :
    getKV (updKV base upd) k =
      match lastVal upd k with
      | some v => some v
      | none => getKV base k := by
  induction upd generalizing base with
  | nil => simp [updKV, lastVal]
  | cons kv rest ih =>
    obtain ⟨k1, v⟩ := kv
    have hstep : updKV base ((k1, v) :: rest) = updKV (setKV base k1 v) rest := rfl
    rw [hstep, ih]
    cases hl : lastVal rest k with
    | some v2 => simp [lastVal, hl]
    | none =>
      by_cases hk : k1 = k <;> simp [lastVal, hl, getKV_setKV, hk]

theorem flattenItems_singletons (pairs : List (String × J))
    (acc : List (String × J)) :
    flattenItems (pairs.map (fun kv => J.obj [kv])) acc = updKV acc pairs := by
  induction pairs generalizing acc with
  | nil => rfl
  | cons kv rest ih =>
    simp only [List.map_cons, flattenItems, flattenStep]
    rw [ih]
    rfl

/-- C8: flattening a wrapped list of single-key dicts merges them
left to right with later keys overwriting earlier ones (the merged
value of every key is its last occurrence); a nested list element is
recursively flattened and merged in place (shown on the doubly-wrapped
example); and the claim's example list flattens to the merged record
from which ingestion upserts `Team(id="1.t.1", name="Alpha",
manager="Bob")`. -/
theorem flatten_merge_and_team_upsert :
    (∀ (pairs : List (String × J)) (k : String),
      getKV (flatten_yahoo_list (J.arr (pairs.map (fun kv => J.obj [kv])))) k =
        lastVal pairs k) ∧
    flatten_yahoo_list (J.arr c8TeamList) =
      [("team_key", J.s "1.t.1"), ("name", J.s "Alpha"), ("managers", c8Managers)] ∧
    flatten_yahoo_list (J.arr [J.arr c8TeamList]) =
      [("team_key", J.s "1.t.1"), ("name", J.s "Alpha"), ("managers", c8Managers)] ∧
    parseTeams c8Teams = .ok [Call.team ⟨"1.t.1", "Alpha", J.s "Bob", J.null⟩] := by
  refine ⟨?_, by decide, by decide, by decide⟩
  intro pairs k
  show getKV (flattenItems _ []) k = _
  rw [flattenItems_singletons, getKV_updKV]
  cases hl : lastVal pairs k <;> simp [getKV]

theorem exceptBind_ok {ε α β : Type} {x : Except ε α} {f : α → Except ε β}
    {b : β} (h : (x >>= f) = .ok b) : ∃ a, x = .ok a ∧ f a = .ok b := by
  cases x with
  | error e => exact absurd h (by simp [Bind.bind, Except.bind])
  | ok a => exact ⟨a, rfl, by simpa [Bind.bind, Except.bind] using h⟩

/-- Properties that hold of every loop iteration's calls and are
closed under concatenation hold of the whole loop's calls. -/
theorem concatMapM_prop (f : J → Except String (List Call))
    (P : List Call → Prop) (Pnil : P [])
    (Papp : ∀ a b, P a → P b → P (a ++ b))
    (hf : ∀ x ys, f x = .ok ys → P ys) :
    ∀ xs cs, concatMapM f xs = .ok cs → P cs := by
  intro xs
  induction xs with
  | nil =>
    intro cs h
    cases h
    exact Pnil
  | cons x xs ih =>
    intro cs h
    unfold concatMapM at h
    rcases exceptBind_ok h with ⟨ys, hfx, h2⟩
    rcases exceptBind_ok h2 with ⟨zs, hrest, h3⟩
    injection h3 with h3
    exact h3 ▸ Papp _ _ (hf x ys hfx) (ih zs hrest)

theorem txWrapItem_team_none (w : J) (ys : List Call)
    (h : txWrapItem w = .ok ys) :
    ∀ c ∈ ys, ∃ t : TxCall, c = Call.tx t ∧ t.team_id = none := by
  simp only [txWrapItem] at h
  cases htl : (match w with | J.obj kvs => pyGet kvs "transaction" | _ => J.null) with
  | arr tl =>
    rw [htl] at h
    injection h with h
    subst h
    intro c hc
    rw [List.mem_singleton] at hc
    subst hc
    exact ⟨_, rfl, rfl⟩
  | null =>
    rw [htl] at h
    injection h with h
    subst h
    intro c hc
    cases hc
  | b v =>
    rw [htl] at h
    injection h with h
    subst h
    intro c hc
    cases hc
  | i n =>
    rw [htl] at h
    injection h with h
    subst h
    intro c hc
    cases hc
  | s v =>
    rw [htl] at h
    injection h with h
    subst h
    intro c hc
    cases hc
  | obj kvs2 =>
    rw [htl] at h
    injection h with h
    subst h
    intro c hc
    cases hc

/-- C10: for a dict-shaped (Yahoo envelope) transactions resource,
every transaction row `persist_bundle` inserts has `team_id = None` —
the acting team is never recorded from the envelope branch. -/
theorem parseTransactions_dict_team_none (kvs : List (String × J))
    (cs : List Call) (h : parseTransactions (J.obj kvs) = .ok cs) :
    ∀ c ∈ cs, ∃ t : TxCall, c = Call.tx t ∧ t.team_id = none := by
  have h2 : concatMapM txWrapItem (extract_items (J.obj kvs)
      ["fantasy_content", "league", "transactions"]) = .ok cs := h
  refine concatMapM_prop txWrapItem
    (fun l => ∀ c ∈ l, ∃ t : TxCall, c = Call.tx t ∧ t.team_id = none)
    ?_ ?_ txWrapItem_team_none _ cs h2
  · intro c hc
    cases hc
  · intro a b ha hb c hc
    rcases List.mem_append.mp hc with h1 | h1
    · exact ha c h1
    · exact hb c h1

/-- Witness for C10 at the concrete envelope above. -/
theorem parseTransactions_dict_team_none_witness :
    (parseTransactions (J.obj c10Kvs) = .ok [Call.tx ⟨some "add", none,
      dumps (J.obj [("type", J.s "add"), ("transaction_key", J.s "t.1")])⟩]) ∧
    (∀ c ∈ [Call.tx (⟨some "add", none,
        dumps (J.obj [("type", J.s "add"), ("transaction_key", J.s "t.1")])⟩ : TxCall)],
      ∃ t : TxCall, c = Call.tx t ∧ t.team_id = none) :=
  ⟨by decide, parseTransactions_dict_team_none c10Kvs _ (by decide)⟩

theorem SymPairs.append : ∀ {l1 l2 : List Call},
    SymPairs l1 → SymPairs l2 → SymPairs (l1 ++ l2) := by
  intro l1 l2 h1 h2
  induction h1 with
  | nil => simpa using h2
  | cons w a b rest hw ha hb _ ih => exact SymPairs.cons w a b _ hw ha hb ih

theorem matchupItemList_pairs (m : J) (ys : List Call)
    (h : matchupItemList m = .ok ys) : SymPairs ys := by
  cases m with
  | obj kvs =>
    simp only [matchupItemList] at h
    rcases exceptBind_ok h with ⟨week, _, h⟩
    split at h
    · injection h with h
      subst h
      rename_i hcond
      simp only [Bool.and_eq_true, bne_iff_ne, ne_eq] at hcond
      exact SymPairs.cons week _ _ [] hcond.1.1 hcond.1.2 hcond.2 SymPairs.nil
    · injection h with h
      subst h
      exact SymPairs.nil
  | null => cases h; exact SymPairs.nil
  | b v => cases h; exact SymPairs.nil
  | i n => cases h; exact SymPairs.nil
  | s v => cases h; exact SymPairs.nil
  | arr xs => cases h; exact SymPairs.nil

theorem matchupWrapItem_pairs (week : Int) (w : J) (ys : List Call)
    (h : matchupWrapItem week w = .ok ys) : SymPairs ys := by
  simp only [matchupWrapItem] at h
  cases hmd : (match w with
      | J.obj kvs => pyGetD kvs "matchup" (J.obj [])
      | _ => J.obj []) with
  | obj mk =>
    rw [hmd] at h
    rcases exceptBind_ok h with ⟨teams, _, h⟩
    split at h
    · split at h
      · split at h
        · injection h with h
          subst h
          rename_i hcond
          simp only [Bool.and_eq_true, bne_iff_ne, ne_eq] at hcond
          exact SymPairs.cons week _ _ [] hcond.1.1 hcond.1.2 hcond.2 SymPairs.nil
        · injection h with h
          subst h
          exact SymPairs.nil
      · injection h with h
        subst h
        exact SymPairs.nil
    · injection h with h
      subst h
      exact SymPairs.nil
  | null => rw [hmd] at h; injection h with h; subst h; exact SymPairs.nil
  | b v => rw [hmd] at h; injection h with h; subst h; exact SymPairs.nil
  | i n => rw [hmd] at h; injection h with h; subst h; exact SymPairs.nil
  | s v => rw [hmd] at h; injection h with h; subst h; exact SymPairs.nil
  | arr xs => rw [hmd] at h; injection h with h; subst h; exact SymPairs.nil

/-- C7: every successful run of the matchups section of
`persist_bundle` writes a concatenation of symmetric matchup-row
pairs: for each processed matchup with a resolved (nonzero) week and
two non-empty team identifiers both `(week, A, B)` and `(week, B, A)`
are written consecutively, and a matchup failing those conditions
contributes no row at all. -/
theorem parseMatchups_pairs (v : J) (cs : List Call)
    (h : parseMatchups v = .ok cs) : SymPairs cs := by
  cases v with
  | arr ms =>
    exact concatMapM_prop matchupItemList SymPairs SymPairs.nil
      (fun a b => SymPairs.append) matchupItemList_pairs ms cs h
  | obj kvs =>
    simp only [parseMatchups] at h
    rcases exceptBind_ok h with ⟨league, _, h⟩
    split at h
    · split at h
      · rcases exceptBind_ok h with ⟨scoreboard, _, h⟩
        rcases exceptBind_ok h with ⟨weekRaw, _, h⟩
        rcases exceptBind_ok h with ⟨sb_wrap, _, h⟩
        rcases exceptBind_ok h with ⟨matchups_dict, _, h⟩
        exact concatMapM_prop (matchupWrapItem (weekCoerce weekRaw)) SymPairs
          SymPairs.nil (fun a b => SymPairs.append)
          (matchupWrapItem_pairs (weekCoerce weekRaw)) _ cs h
      · injection h with h
        subst h
        exact SymPairs.nil
    · injection h with h
      subst h
      exact SymPairs.nil
  | null => cases h; exact SymPairs.nil
  | b v => cases h; exact SymPairs.nil
  | i n => cases h; exact SymPairs.nil
  | s v => cases h; exact SymPairs.nil

/-- Witness for C7: on the concrete scoreboard envelope the matchups
section emits exactly the symmetric pair for week 3. -/
theorem parseMatchups_pairs_witness :
    (parseMatchups c7Matchups = .ok
      [Call.matchup ⟨3, "A", "B", false, J.null, J.null, J.null⟩,
       Call.matchup ⟨3, "B", "A", false, J.null, J.null, J.null⟩]) ∧
    SymPairs
      [Call.matchup ⟨3, "A", "B", false, J.null, J.null, J.null⟩,
       Call.matchup ⟨3, "B", "A", false, J.null, J.null, J.null⟩] :=
  ⟨by decide, parseMatchups_pairs c7Matchups _ (by decide)⟩

theorem countHash_eq_zero_of_any_false (t : List SnapRow) (h : String)
    (hany : t.any (fun row => row.content_hash == h) = false) :
    countHash t h = 0 := by
  induction t with
  | nil => rfl
  | cons r rest ih =>
    simp only [List.any_cons, Bool.or_eq_false_iff] at hany
    unfold countHash
    rw [List.filter_cons_of_neg (by simpa using hany.1)]
    exact ih hany.2

theorem countHash_pos_of_any_true (t : List SnapRow) (h : String)
    (hany : t.any (fun row => row.content_hash == h) = true) :
    1 ≤ countHash t h := by
  induction t with
  | nil => simp at hany
  | cons r rest ih =>
    simp only [List.any_cons, Bool.or_eq_true] at hany
    unfold countHash
    rcases hany with h1 | h1
    · rw [List.filter_cons_of_pos (by simpa using h1)]
      simp
    · by_cases h2 : (r.content_hash == h) = true
      · rw [List.filter_cons_of_pos (by simpa using h2)]
        simp
      · rw [List.filter_cons_of_neg (by simpa using h2)]
        exact ih h1

theorem countHash_append (t1 t2 : List SnapRow) (h : String) :
    countHash (t1 ++ t2) h = countHash t1 h + countHash t2 h := by
  unfold countHash
  rw [List.filter_append, List.length_append]

/-- `record_snapshot` keeps every content hash on at most one row. -/
theorem countHash_record_le (sha1 : String → String) (t : List SnapRow)
    (e : String) (p : List (String × J)) (r : String)
    (hle : ∀ h, countHash t h ≤ 1) :
    ∀ h, countHash (record_snapshot sha1 t e p r).1 h ≤ 1 := by
  intro h
  unfold record_snapshot
  cases hany : t.any (fun row => row.content_hash == snapDigest sha1 e p r) with
  | true =>
    simp only [hany, if_pos]
    exact hle h
  | false =>
    simp only [hany, Bool.false_eq_true, if_neg, not_false_iff]
    rw [countHash_append]
    by_cases hh : snapDigest sha1 e p r = h
    · subst hh
      rw [countHash_eq_zero_of_any_false t _ hany]
      simp [countHash]
    · have : countHash [(⟨e, dumps (J.obj p), snapDigest sha1 e p r, r⟩ : SnapRow)] h = 0 := by
        simp [countHash, hh]
      rw [this]
      simpa using hle h

theorem countHash_mono_record (sha1 : String → String) (t : List SnapRow)
    (e : String) (p : List (String × J)) (r : String) (h : String) :
    countHash t h ≤ countHash (record_snapshot sha1 t e p r).1 h := by
  unfold record_snapshot
  cases hany : t.any (fun row => row.content_hash == snapDigest sha1 e p r) with
  | true => simp [hany]
  | false =>
    simp only [hany, Bool.false_eq_true, if_neg, not_false_iff]
    rw [countHash_append]
    exact Nat.le_add_right _ _

theorem countHash_pos_record (sha1 : String → String) (t : List SnapRow)
    (e : String) (p : List (String × J)) (r : String) :
    1 ≤ countHash (record_snapshot sha1 t e p r).1 (snapDigest sha1 e p r) := by
  unfold record_snapshot
  cases hany : t.any (fun row => row.content_hash == snapDigest sha1 e p r) with
  | true =>
    simp only [hany, if_pos]
    exact countHash_pos_of_any_true t _ hany
  | false =>
    simp only [hany, Bool.false_eq_true, if_neg, not_false_iff]
    rw [countHash_append]
    have : 1 ≤ countHash [(⟨e, dumps (J.obj p), snapDigest sha1 e p r, r⟩ : SnapRow)]
        (snapDigest sha1 e p r) := by
      simp [countHash]
    omega

theorem countHash_le_one_snapshotBundle (sha1 : String → String)
    (lk : String) (bundle : List (String × J)) (t : List SnapRow)
    (hle : ∀ h, countHash t h ≤ 1) :
    ∀ h, countHash (snapshotBundle sha1 t lk bundle) h ≤ 1 := by
  induction bundle generalizing t with
  | nil => exact hle
  | cons nd rest ih =>
    exact ih _ (countHash_record_le sha1 t _ _ _ hle)

theorem countHash_mono_snapshotBundle (sha1 : String → String)
    (lk : String) (bundle : List (String × J)) (t : List SnapRow) (h : String) :
    countHash t h ≤ countHash (snapshotBundle sha1 t lk bundle) h := by
  induction bundle generalizing t with
  | nil => exact Nat.le_refl _
  | cons nd rest ih =>
    exact Nat.le_trans (countHash_mono_record sha1 t _ _ _ h) (ih _)

theorem countHash_pos_snapshotBundle (sha1 : String → String)
    (lk : String) (bundle : List (String × J)) (t : List SnapRow)
    (nd : String × J) (hmem : nd ∈ bundle) :
    1 ≤ countHash (snapshotBundle sha1 t lk bundle)
      (snapDigest sha1 (epOf lk nd.1) [("format", J.s "json")] (dumps nd.2)) := by
  induction bundle generalizing t with
  | nil => cases hmem
  | cons nd1 rest ih =>
    rcases List.mem_cons.mp hmem with h1 | h1
    · subst h1
      exact Nat.le_trans (countHash_pos_record sha1 t _ _ _)
        (countHash_mono_snapshotBundle sha1 lk rest _ _)
    · exact ih _ h1

/-- C1 amended: running the ingestion persistence (snapshot recording
for each resource, then `persist_bundle`) twice on byte-identical
bundle content leaves exactly one snapshots row per distinct content
digest, and the second run leaves the players, teams, rosters and
matchups tables unchanged (in their modelled columns; SQLite also
refreshes `updated_at`), but appends the bundle's transaction rows to
`transactions_raw` again — the transactions log is append-only per
run, not idempotent. -/
theorem ingest_now_twice
    (sha1 : String → String) (db : DB) (lk : String)
    (bundle : List (String × J)) (cs : List Call) (db1 : DB)
    (hp : (keysT db.players).Nodup) (ht : (keysT db.teams).Nodup)
    (hr : (keysT db.rosters).Nodup) (hm : (keysT db.matchups).Nodup)
    (hsnap : db.snapshots = [])
    (hcs : persist_bundle_calls bundle = .ok cs)
    (h1 : ingest_now sha1 db lk bundle = .ok db1) :
    ∃ db2 : DB, ingest_now sha1 db1 lk bundle = .ok db2 ∧
      db2.players = db1.players ∧ db2.teams = db1.teams ∧
      db2.rosters = db1.rosters ∧ db2.matchups = db1.matchups ∧
      db2.transactions_raw = db1.transactions_raw ++ txRowsOf cs ∧
      ∀ nd ∈ bundle, countHash db2.snapshots
        (snapDigest sha1 (epOf lk nd.1) [("format", J.s "json")]
          (dumps nd.2)) = 1 := by
  have hdb1 : db1 = applyCalls
      { db with snapshots := snapshotBundle sha1 db.snapshots lk bundle } cs := by
    unfold ingest_now persist_bundle at h1
    rw [hcs] at h1
    simp only [Bind.bind, Except.bind] at h1
    injection h1 with h1
    exact h1.symm
  have h2 : ingest_now sha1 db1 lk bundle = .ok (applyCalls
      { db1 with snapshots := snapshotBundle sha1 db1.snapshots lk bundle } cs) := by
    unfold ingest_now persist_bundle
    rw [hcs]
    rfl
  have hp1 : db1.players =
      applyT playerKey interpPlayer (playerCallsOf cs) db.players := by
    rw [hdb1]
    exact players_applyCalls cs _
  have ht1 : db1.teams =
      applyT teamKey interpTeam (teamCallsOf cs) db.teams := by
    rw [hdb1]
    exact teams_applyCalls cs _
  have hr1 : db1.rosters =
      applyT rosterKey interpRoster (rosterCallsOf cs) db.rosters := by
    rw [hdb1]
    exact rosters_applyCalls cs _
  have hm1 : db1.matchups =
      applyT matchupKey interpMatchup (matchupCallsOf cs) db.matchups := by
    rw [hdb1]
    exact matchups_applyCalls cs _
  refine ⟨_, h2, ?_, ?_, ?_, ?_, ?_, ?_⟩
  · have e1 : (applyCalls { db1 with
        snapshots := snapshotBundle sha1 db1.snapshots lk bundle } cs).players =
        applyT playerKey interpPlayer (playerCallsOf cs) db1.players :=
      players_applyCalls cs _
    rw [e1, hp1, applyT_replay playerKey interpPlayer (playerCallsOf cs) db.players hp
      (fun k o => chainT_idem_const playerKey interpPlayer
        (fun _ _ _ => rfl) (playerCallsOf cs) k o)]
  · have e1 : (applyCalls { db1 with
        snapshots := snapshotBundle sha1 db1.snapshots lk bundle } cs).teams =
        applyT teamKey interpTeam (teamCallsOf cs) db1.teams :=
      teams_applyCalls cs _
    rw [e1, ht1, applyT_replay teamKey interpTeam (teamCallsOf cs) db.teams ht
      (fun k o => chainT_idem_const teamKey interpTeam
        (fun _ _ _ => rfl) (teamCallsOf cs) k o)]
  · have e1 : (applyCalls { db1 with
        snapshots := snapshotBundle sha1 db1.snapshots lk bundle } cs).rosters =
        applyT rosterKey interpRoster (rosterCallsOf cs) db1.rosters :=
      rosters_applyCalls cs _
    rw [e1, hr1, applyT_replay rosterKey interpRoster (rosterCallsOf cs) db.rosters hr
      (fun k o => chainT_roster_idem (rosterCallsOf cs) k o)]
  · have e1 : (applyCalls { db1 with
        snapshots := snapshotBundle sha1 db1.snapshots lk bundle } cs).matchups =
        applyT matchupKey interpMatchup (matchupCallsOf cs) db1.matchups :=
      matchups_applyCalls cs _
    rw [e1, hm1, applyT_replay matchupKey interpMatchup (matchupCallsOf cs) db.matchups hm
      (fun k o => chainT_idem_const matchupKey interpMatchup
        (fun _ _ _ => rfl) (matchupCallsOf cs) k o)]
  · exact transactions_applyCalls cs _
  · intro nd hmem
    have e2 : (applyCalls { db1 with
        snapshots := snapshotBundle sha1 db1.snapshots lk bundle } cs).snapshots =
        snapshotBundle sha1 db1.snapshots lk bundle := snapshots_applyCalls cs _
    have e1 : db1.snapshots = snapshotBundle sha1 ([] : List SnapRow) lk bundle := by
      rw [hdb1, snapshots_applyCalls]
      show snapshotBundle sha1 db.snapshots lk bundle = _
      rw [hsnap]
    rw [e2, e1]
    refine Nat.le_antisymm ?_ ?_
    · exact countHash_le_one_snapshotBundle sha1 lk bundle _
        (countHash_le_one_snapshotBundle sha1 lk bundle []
          (fun h => by simp [countHash])) _
    · exact countHash_pos_snapshotBundle sha1 lk bundle _ nd hmem

/-- C1 counterexample: on a bundle with one transaction, the first
persistence run leaves one `transactions_raw` row and the second run
leaves two — the second run does *not* leave every entity table
unchanged. -/
theorem ingest_twice_transactions_grow_cex :
    (ingest_now id dbEmpty "nfl.l.1" txBundle).bind (fun db1 =>
      (ingest_now id db1 "nfl.l.1" txBundle).map (fun db2 =>
        (db1.transactions_raw.length, db2.transactions_raw.length,
          decide (db2.transactions_raw = db1.transactions_raw)))) =
      .ok (1, 2, false) := by rfl

/-- Witness for the C1 amended theorem at the concrete `txBundle`. -/
theorem ingest_now_twice_witness :
    ((keysT dbEmpty.players).Nodup ∧ (keysT dbEmpty.teams).Nodup ∧
     (keysT dbEmpty.rosters).Nodup ∧ (keysT dbEmpty.matchups).Nodup ∧
     dbEmpty.snapshots = [] ∧ persist_bundle_calls txBundle = .ok c1Calls ∧
     ingest_now id dbEmpty "nfl.l.1" txBundle = .ok c1Db1) ∧
    (∃ db2 : DB, ingest_now id c1Db1 "nfl.l.1" txBundle = .ok db2 ∧
      db2.players = c1Db1.players ∧ db2.teams = c1Db1.teams ∧
      db2.rosters = c1Db1.rosters ∧ db2.matchups = c1Db1.matchups ∧
      db2.transactions_raw = c1Db1.transactions_raw ++ txRowsOf c1Calls ∧
      ∀ nd ∈ txBundle, countHash db2.snapshots
        (snapDigest id (epOf "nfl.l.1" nd.1) [("format", J.s "json")]
          (dumps nd.2)) = 1) :=
  ⟨⟨by decide, by decide, by decide, by decide, rfl, rfl, rfl⟩,
    ingest_now_twice id dbEmpty "nfl.l.1" txBundle c1Calls c1Db1
      (by decide) (by decide) (by decide) (by decide) rfl rfl rfl⟩
